import Mathlib

/-!
# WebVTT parser (`webvtt.c`): a shallow embedding

The C translation unit `webvtt.c` is embedded function by function.

Modelling conventions.

* A byte is a `Nat` (0..255).  `ctx->buffer` is the list of bytes found in
  memory from the buffer's base address on; a read outside the list yields
  the byte 0.  The contents are a parameter of `webvtt_parse_new`, because
  `malloc` does not initialise the block it returns.
* `ctx->offset` and `ctx->length` are C `long`s that are never negative in a
  state the code can reach; they are natural numbers here, and every
  comparison that the C code makes on a difference is made in `Int`.
* `int` arithmetic is two's complement on 32 bits (`wrap32`).  A `%d` field
  is converted as glibc does it: `strtol` saturates at `LONG_MIN`/`LONG_MAX`
  (64 bits), and the `long` is then stored into the `int` (`clamp_long`,
  `wrap32`).
* `double` is IEEE 754 binary64 with round-to-nearest-even, every operation
  evaluated in double precision (`F64`).
* `malloc` is assumed to succeed and `ctx`, `ctx->buffer` to be non-null.
* A return path is identified by the diagnostic it writes to `stderr`.
-/

namespace WebVTT

/-! ## Bytes and memory -/

/-- The macro `BUFFER_SIZE`. -/
def BUFFER_SIZE : Nat := 4096

/-- The bytes of a string literal. -/
def bytes (s : String) : List Nat := s.toList.map Char.toNat

/-- Read of the byte at index `i` from the base address of the buffer. -/
def rd (buf : List Nat) (i : Nat) : Nat := buf.getD i 0

/-- The C library's `isspace` in the "C" locale: space, `\t`, `\n`, `\v`, `\f`, `\r`. -/
def isspace (c : Nat) : Bool := c == 32 || (9 ≤ c && c ≤ 13)

/-- The C library's `isdigit`. -/
def isdigit (c : Nat) : Bool := 48 ≤ c && c ≤ 57

/-- The test `!memcmp(buf + p, pat, |pat|)`: the bytes at `p` are those of `pat`. -/
def memeq (buf : List Nat) : Nat → List Nat → Bool
  | _, [] => true
  | p, c :: cs => rd buf p == c && memeq buf (p + 1) cs

/-- The bytes `memcpy(dst, buf + p, n)` copies out of the buffer. -/
def memread (buf : List Nat) (p n : Nat) : List Nat :=
  (List.range n).map (fun i => rd buf (p + i))

/-- The block `dst` after `memcpy(dst, src, n)`. -/
def memcpy (dst src : List Nat) (n : Nat) : List Nat :=
  (List.range n).map (fun i => rd src i) ++ dst.drop n

/-! ## Machine arithmetic -/

/-- Reduction of an integer to a 32-bit two's complement `int`. -/
def wrap32 (x : Int) : Int := (x + 2147483648) % 4294967296 - 2147483648

/-- Saturation of an integer at `LONG_MIN` and `LONG_MAX` of a 64-bit `long`,
as `strtol` returns it for a digit string out of range. -/
def clamp_long (x : Int) : Int :=
  if x < -9223372036854775808 then -9223372036854775808
  else if 9223372036854775807 < x then 9223372036854775807
  else x

/-- A finite binary64 value, held exactly as the dyadic rational `num / 2 ^ scale`. -/
structure F64 where
  num : Int
  scale : Nat
deriving DecidableEq, Repr

namespace F64

/-- The number of low-order bits that `a` has beyond 53 significant bits:
the least `k` with `a / 2 ^ k < 2 ^ 53`, found in at most `fuel` halvings. -/
def excess_bits : Nat → Nat → Nat
  | 0, _ => 0
  | fuel + 1, a => if a < 2 ^ 53 then 0 else excess_bits fuel (a / 2) + 1

/-- Round-to-nearest-even of a natural number to 53 significant bits. -/
def round53 (a : Nat) : Nat :=
  if a < 2 ^ 53 then a
  else
    let sh := excess_bits a a
    let q := a / 2 ^ sh
    let r := a % 2 ^ sh
    let half := 2 ^ (sh - 1)
    if r > half || (r == half && q % 2 == 1) then (q + 1) * 2 ^ sh else q * 2 ^ sh

/-- The binary64 value nearest to the dyadic rational `n / 2 ^ k`. -/
def rnd (n : Int) (k : Nat) : F64 :=
  ⟨if n < 0 then -((round53 n.natAbs : Nat) : Int) else ((round53 n.natAbs : Nat) : Int), k⟩

/-- Conversion of an integer to `double`. -/
def ofInt (n : Int) : F64 := rnd n 0

/-- Product of two `double`s. -/
def mul (x y : F64) : F64 := rnd (x.num * y.num) (x.scale + y.scale)

/-- Sum of two `double`s. -/
def add (x y : F64) : F64 :=
  rnd (x.num * 2 ^ y.scale + y.num * 2 ^ x.scale) (x.scale + y.scale)

/-- Conversion of a `double` to `long`: the fractional part is discarded. -/
def toLong (x : F64) : Int :=
  if x.num < 0 then -((x.num.natAbs / 2 ^ x.scale : Nat) : Int)
  else ((x.num.natAbs / 2 ^ x.scale : Nat) : Int)

/-- The constant `1e-3`: the binary64 value nearest to 1/1000,
`0x3F50624DD2F1A9FC = 4611686018427388 / 2 ^ 62`. -/
def milli : F64 := ⟨4611686018427388, 62⟩

/-- The constant `1e3`. -/
def kilo : F64 := ⟨1000, 0⟩

end F64

/-! ## Data model -/

/-- The `struct webvtt_parser` (the typedef `webvtt_parser`). -/
structure webvtt_parser_t where
  state : Int
  buffer : List Nat
  offset : Nat
  length : Nat
deriving DecidableEq, Repr

/-- The `struct webvtt_cue` without its `next` link: a chain of cues is a list. -/
structure webvtt_cue where
  start : Int
  end_ : Int
  text : List Nat
deriving DecidableEq, Repr

/-- What `webvtt_parse_cue` returns: a cue, or `NULL` from one of two
return statements, told apart by the diagnostic written to `stderr`. -/
inductive CueResult where
  | cue (c : webvtt_cue)
  | no_more
  | bad_timestamps
deriving DecidableEq, Repr

/-- What `webvtt_parse` returns: the chain of cues (`NULL` is the empty
chain), or `NULL` after one of the two signature diagnostics. -/
inductive ParseResult where
  | too_short
  | bad_magic
  | cues (cs : List webvtt_cue)
deriving DecidableEq, Repr

/-! ## `sscanf(p, "%d:%d.%d --> %d:%d.%d", ...)` -/

/-- Input white space skipped by a `%d` directive or by a blank of the format. -/
def scan_space : List Nat → List Nat
  | [] => []
  | c :: cs => if isspace c then scan_space cs else c :: cs

/-- The longest run of decimal digits, accumulated in base ten. -/
def scan_digits : Nat → List Nat → Nat × List Nat
  | acc, [] => (acc, [])
  | acc, c :: cs => if isdigit c then scan_digits (acc * 10 + (c - 48)) cs else (acc, c :: cs)

/-- The digits of a `%d` item after its optional sign: the signed value is
saturated to a `long` and stored into an `int`. -/
def scan_number (neg : Bool) (inp : List Nat) : Option (Int × List Nat) :=
  match inp with
  | [] => none
  | c :: _ =>
    if isdigit c then
      let r := scan_digits 0 inp
      some (wrap32 (clamp_long (if neg then -(r.1 : Int) else (r.1 : Int))), r.2)
    else none

/-- The directive `%d`: white space, an optional sign, one or more digits. -/
def scan_int (inp : List Nat) : Option (Int × List Nat) :=
  match scan_space inp with
  | [] => none
  | c :: cs =>
    if c = 45 then scan_number true cs
    else if c = 43 then scan_number false cs
    else scan_number false (c :: cs)

/-- An ordinary character of the format: the next input byte must be that character. -/
def scan_lit (c : Nat) (inp : List Nat) : Option (List Nat) :=
  match inp with
  | [] => none
  | d :: rest => if d = c then some rest else none

/-- The six items of the timing line. -/
structure Timing where
  smin : Int
  ssec : Int
  smsec : Int
  emin : Int
  esec : Int
  emsec : Int
deriving DecidableEq, Repr

/-- The call `sscanf(p, "%d:%d.%d --> %d:%d.%d", ...)` on the bytes at `p`:
`some` exactly when all six items are converted (`items == 6`). -/
def sscanf_timing (inp : List Nat) : Option Timing := do
  let (smin, i1) ← scan_int inp
  let i2 ← scan_lit 58 i1
  let (ssec, i3) ← scan_int i2
  let i4 ← scan_lit 46 i3
  let (smsec, i5) ← scan_int i4
  let i6 := scan_space i5
  let i7 ← scan_lit 45 i6
  let i8 ← scan_lit 45 i7
  let i9 ← scan_lit 62 i8
  let i10 := scan_space i9
  let (emin, i11) ← scan_int i10
  let i12 ← scan_lit 58 i11
  let (esec, i13) ← scan_int i12
  let i14 ← scan_lit 46 i13
  let (emsec, _) ← scan_int i14
  pure ⟨smin, ssec, smsec, emin, esec, emsec⟩

/-- The expression `(min*60 + sec + msec * 1e-3) * 1e3` converted to an integer:
`double t = min*60 + sec + msec * 1e-3;` then `cue->start = t * 1e3;`. -/
def to_millis (min sec msec : Int) : Int :=
  let t := F64.add (F64.ofInt (wrap32 (wrap32 (min * 60) + sec)))
    (F64.mul (F64.ofInt msec) F64.milli)
  F64.toLong (F64.mul t F64.kilo)

/-! ## `webvtt_parse_new` -/

/-- The session `webvtt_parse_new` returns; `mem` is what `malloc` left in the buffer. -/
def webvtt_parse_new (mem : List Nat) : webvtt_parser_t :=
  { state := 0, buffer := mem, offset := 0, length := 0 }

/-! ## `webvtt_print_cue` -/

/-- The decimal digits of `n`, most significant first; `fuel` bounds their number. -/
def dec_digits : Nat → Nat → List Nat
  | 0, _ => []
  | fuel + 1, n => if n < 10 then [48 + n] else dec_digits fuel (n / 10) ++ [48 + n % 10]

/-- The bytes written for an `int` by the conversion `%0wd`. -/
def printf_d (w : Nat) (v : Int) : List Nat :=
  let ds := dec_digits (v.natAbs + 1) v.natAbs
  let sign := if v < 0 then [45] else []
  sign ++ List.replicate (w - sign.length - ds.length) 48 ++ ds

/-- The values of `h`, `m`, `s`, `ms` at the first `fprintf` and at the second. -/
structure PrintFields where
  h1 : Int
  m1 : Int
  s1 : Int
  ms1 : Int
  h2 : Int
  m2 : Int
  s2 : Int
  ms2 : Int
deriving DecidableEq, Repr

/-- The locals of `webvtt_print_cue` as its two timestamp `fprintf`s read them.
`/` and `%` on `long` truncate toward zero; `h`, `m`, `s`, `ms` are `int`s.
After `time = cue->end` the code assigns `h`, `m` and `s` only. -/
def print_fields (cue : webvtt_cue) : PrintFields :=
  let time := cue.start
  let h := wrap32 (Int.tdiv time 3600000)
  let time := Int.tmod time 3600000
  let m := wrap32 (Int.tdiv time 60000)
  let time := Int.tmod time 60000
  let s := wrap32 (Int.tdiv time 1000)
  let ms := wrap32 (Int.tmod time 1000)
  let time2 := cue.end_
  let h2 := wrap32 (Int.tdiv time2 3600000)
  let time2 := Int.tmod time2 3600000
  let m2 := wrap32 (Int.tdiv time2 60000)
  let time2 := Int.tmod time2 60000
  let s2 := wrap32 (Int.tdiv time2 1000)
  ⟨h, m, s, ms, h2, m2, s2, ms⟩

/-- The bytes `webvtt_print_cue` writes to `out` (for non-null `out` and `cue`):
`"%02d:%02d:%02d.%03d"`, `" --> %02d:%02d:%02d.%03d\n"`, `"%s\n\n"`. -/
def webvtt_print_cue (cue : webvtt_cue) : List Nat :=
  let f := print_fields cue
  printf_d 2 f.h1 ++ [58] ++ printf_d 2 f.m1 ++ [58] ++ printf_d 2 f.s1 ++ [46] ++ printf_d 3 f.ms1
    ++ bytes " --> "
    ++ printf_d 2 f.h2 ++ [58] ++ printf_d 2 f.m2 ++ [58] ++ printf_d 2 f.s2 ++ [46] ++ printf_d 3 f.ms2
    ++ [10]
    ++ cue.text.takeWhile (fun c => c != 0) ++ [10, 10]

/-! ## `webvtt_parse_cue` -/

/-- The loop `while (p - ctx->buffer < ctx->length && isspace(*p)) p++;`,
unrolled `fuel` times. -/
def skip_space_loop (buf : List Nat) (length : Nat) : Nat → Nat → Nat
  | 0, p => p
  | fuel + 1, p =>
    if p < length && isspace (rd buf p) then skip_space_loop buf length fuel (p + 1) else p

/-- The white-space loop run from `p`: it makes at most `length - p` steps. -/
def skip_space (buf : List Nat) (length p : Nat) : Nat :=
  skip_space_loop buf length (length - p) p

/-- The loop `while (p - ctx->buffer < ctx->length && *p != '\r' && *p != '\n') p++;`,
unrolled `fuel` times. -/
def skip_line_loop (buf : List Nat) (length : Nat) : Nat → Nat → Nat
  | 0, p => p
  | fuel + 1, p =>
    if p < length && rd buf p != 13 && rd buf p != 10 then
      skip_line_loop buf length fuel (p + 1)
    else p

/-- The end-of-line loop run from `p`: it makes at most `length - p` steps. -/
def skip_line (buf : List Nat) (length p : Nat) : Nat :=
  skip_line_loop buf length (length - p) p

/-- The loop `while (e - ctx->buffer + 4 < ctx->length)` that stops at the
first of `"\n\n"`, `"\r\n\r\n"`, `"\r\r"`, unrolled `fuel` times. -/
def find_blank_loop (buf : List Nat) (length : Nat) : Nat → Nat → Nat
  | 0, e => e
  | fuel + 1, e =>
    if e + 4 < length then
      if memeq buf e [10, 10] then e
      else if memeq buf e [13, 10, 13, 10] then e
      else if memeq buf e [13, 13] then e
      else find_blank_loop buf length fuel (e + 1)
    else e

/-- The terminator loop run from `e`: it makes at most `length - e` steps. -/
def find_blank (buf : List Nat) (length e : Nat) : Nat :=
  find_blank_loop buf length (length - e) e

/-- The function `webvtt_parse_cue`: its return value and the session afterwards. -/
def webvtt_parse_cue (ctx : webvtt_parser_t) : CueResult × webvtt_parser_t :=
  if (ctx.length : Int) - (ctx.offset : Int) < 24 then (CueResult.no_more, ctx)
  else
    let p := skip_space ctx.buffer ctx.length ctx.offset
    match sscanf_timing (ctx.buffer.drop p) with
    | none => (CueResult.bad_timestamps, ctx)
    | some t =>
      let p := skip_line ctx.buffer ctx.length p
      let p := p + 1
      let e := find_blank ctx.buffer ctx.length p
      let e := skip_line ctx.buffer ctx.length e
      let text := memread ctx.buffer p (e - p)
      (CueResult.cue ⟨to_millis t.smin t.ssec t.smsec, to_millis t.emin t.esec t.emsec, text⟩,
        { ctx with offset := e })

/-! ## `webvtt_parse` -/

/-- The loop `do { next = webvtt_parse_cue(ctx); ... } while (next != NULL);`:
the cues it links and the session afterwards, unrolled `fuel` times. -/
def cue_loop : Nat → webvtt_parser_t → List webvtt_cue × webvtt_parser_t
  | 0, ctx => ([], ctx)
  | fuel + 1, ctx =>
    match webvtt_parse_cue ctx with
    | (CueResult.cue c, ctx1) =>
      let r := cue_loop fuel ctx1
      (c :: r.1, r.2)
    | (_, ctx1) => ([], ctx1)

/-- The test `p[0] == (char)0xef && p[1] == (char)0xbb && p[2] == (char)0xbf`
on the first three bytes of the buffer. -/
def has_bom (buf : List Nat) : Bool :=
  rd buf 0 == 239 && rd buf 1 == 187 && rd buf 2 == 191

/-- The statements `cue = webvtt_parse_cue(ctx); if (cue) { do ... while (next != NULL); }`
of `webvtt_parse`: the chain of cues and the session afterwards.  The loop is
given the fuel `length - offset`. -/
def cue_chain (ctx : webvtt_parser_t) : List webvtt_cue × webvtt_parser_t :=
  match webvtt_parse_cue ctx with
  | (CueResult.cue c, ctx1) =>
    let r := cue_loop (ctx1.length - ctx1.offset) ctx1
    (c :: r.1, r.2)
  | (_, ctx1) => ([], ctx1)

/-- The value of `p` after the white-space loop of `webvtt_parse`, for a
signature that was accepted. -/
def signature_end (ctx : webvtt_parser_t) : Nat :=
  skip_space ctx.buffer ctx.length ((if has_bom ctx.buffer then 3 else 0) + 6)

/-- The function `webvtt_parse`: its return value and the session afterwards.
The final loop, which prints every cue to `stderr`, changes neither. -/
def webvtt_parse (ctx : webvtt_parser_t) : ParseResult × webvtt_parser_t :=
  if ctx.length < 6 then (ParseResult.too_short, ctx)
  else
    let p := if has_bom ctx.buffer then 3 else 0
    if has_bom ctx.buffer && ctx.length < 9 then (ParseResult.too_short, ctx)
    else if !memeq ctx.buffer p (bytes "WEBVTT") then (ParseResult.bad_magic, ctx)
    else
      let r := cue_chain { ctx with offset := signature_end ctx }
      (ParseResult.cues r.1, r.2)

/-! ## `webvtt_parse_buffer` -/

/-- The function `webvtt_parse_buffer`, called with a chunk and its length.
The count `bytes` is computed on integers, as in C; it is not negative when
`ctx->length <= BUFFER_SIZE`. -/
def webvtt_parse_buffer (ctx : webvtt_parser_t) (chunk : List Nat) : ParseResult × webvtt_parser_t :=
  let n : Int := min (chunk.length : Int) ((BUFFER_SIZE : Int) - (ctx.length : Int))
  webvtt_parse { ctx with buffer := memcpy ctx.buffer chunk n.toNat, length := (ctx.length + n).toNat }

/-- The session `webvtt_parse_buffer` hands to `webvtt_parse`: the session
after `memcpy(ctx->buffer, buffer, bytes); ctx->length += bytes;`. -/
def staged (ctx : webvtt_parser_t) (chunk : List Nat) : webvtt_parser_t :=
  { ctx with
    buffer := memcpy ctx.buffer chunk
      (min (chunk.length : Int) ((BUFFER_SIZE : Int) - (ctx.length : Int))).toNat,
    length := (ctx.length
      + min (chunk.length : Int) ((BUFFER_SIZE : Int) - (ctx.length : Int))).toNat }

/-! ## Positions computed by `webvtt_parse_cue` -/

/-- The value of `p` after the white-space loop of `webvtt_parse_cue`: where `sscanf` reads. -/
def cue_scan_start (ctx : webvtt_parser_t) : Nat :=
  skip_space ctx.buffer ctx.length ctx.offset

/-- The value of `p` at `char *e = p;`: where the cue text starts. -/
def cue_text_start (ctx : webvtt_parser_t) : Nat :=
  skip_line ctx.buffer ctx.length (cue_scan_start ctx) + 1

/-- The value of `e` at `memcpy(text, p, e - p)`: where the cue text ends. -/
def cue_text_end (ctx : webvtt_parser_t) : Nat :=
  skip_line ctx.buffer ctx.length (find_blank ctx.buffer ctx.length (cue_text_start ctx))

/-! ## The cue sequence of the specification -/

/-- The cues yielded by successive `webvtt_parse_cue` calls from a session, in
call order, up to the first call that yields no cue, and the session after
that call. -/
inductive SuccessiveCues : webvtt_parser_t → List webvtt_cue → webvtt_parser_t → Prop where
  | stop_no_more (ctx ctx1 : webvtt_parser_t) :
      webvtt_parse_cue ctx = (CueResult.no_more, ctx1) → SuccessiveCues ctx [] ctx1
  | stop_bad_timestamps (ctx ctx1 : webvtt_parser_t) :
      webvtt_parse_cue ctx = (CueResult.bad_timestamps, ctx1) → SuccessiveCues ctx [] ctx1
  | next (ctx ctx1 ctx2 : webvtt_parser_t) (c : webvtt_cue) (cs : List webvtt_cue) :
      webvtt_parse_cue ctx = (CueResult.cue c, ctx1) → SuccessiveCues ctx1 cs ctx2 →
      SuccessiveCues ctx (c :: cs) ctx2

/-- The signature test of `webvtt_parse` passes: enough bytes are staged and
the six bytes after the optional byte-order mark are `WEBVTT`. -/
def valid_signature (ctx : webvtt_parser_t) : Prop :=
  (memread ctx.buffer 0 3 ≠ [239, 187, 191] ∧ 6 ≤ ctx.length
      ∧ memread ctx.buffer 0 6 = bytes "WEBVTT")
    ∨ (memread ctx.buffer 0 3 = [239, 187, 191] ∧ 9 ≤ ctx.length
      ∧ memread ctx.buffer 3 6 = bytes "WEBVTT")

/-- The session `ctx` seen from `pre.length` bytes lower in memory, with the
bytes `pre` in front of its buffer, and with `state` set to `st`. -/
def rebase (pre : List Nat) (st : Int) (ctx : webvtt_parser_t) : webvtt_parser_t :=
  { state := st, buffer := pre ++ ctx.buffer, offset := ctx.offset + pre.length,
    length := ctx.length + pre.length }

/-! ## Concrete documents -/

/-- The document of the specification's first scenario. -/
def doc_hello : List Nat := bytes "WEBVTT\n\n00:01.000 --> 00:02.500\nHello\n\n"

/-- A single-cue document whose text block has three lines, `Hello`, `abc` and `d`. -/
def doc_three_lines : List Nat :=
  bytes "WEBVTT\n\n00:01.000 --> 00:02.500\nHello\nabc\nd\n\n"

/-- A document with one cue followed by a block whose timing line is malformed. -/
def doc_bad_second : List Nat :=
  bytes "WEBVTT\n\n00:01.000 --> 00:02.500\nHello\n\nxx:03.000 --> 00:04.000\nWorld\n\n"

/-- A single-cue document whose cue starts at 1 second and 1 millisecond. -/
def doc_one_milli : List Nat := bytes "WEBVTT\n\n00:01.001 --> 00:02.500\nHello\n\n"

/-- A document with two cues separated by a blank line; the first starts at
1 second and 1 millisecond. -/
def doc_two_cues : List Nat :=
  bytes "WEBVTT\n\n00:01.001 --> 00:02.500\nHello\n\n00:03.000 --> 00:04.000\nWorld\n\n"

/-- A document that ends with its timing line, 24 bytes long, without a line terminator. -/
def doc_unterminated : List Nat := bytes "WEBVTT\n\n00:01.000 --> 00:02.5000"

/-- The same document after the byte-order mark EF BB BF. -/
def doc_unterminated_bom : List Nat := [239, 187, 191] ++ doc_unterminated

/-- What `malloc` may leave in a buffer: zero bytes, but the digit `7` at index 32. -/
def mem_seven : List Nat := List.replicate 32 0 ++ [55]

/-- The scenario document with CR LF line endings. -/
def doc_crlf : List Nat :=
  bytes "WEBVTT\r\n\r\n00:01.000 --> 00:02.500\r\nHello\r\n\r\n"

/-- A document whose two timestamps and arrow stand on three lines. -/
def doc_split_timing : List Nat := bytes "WEBVTT\n\n00:01.000\n-->\n00:02.500\nHello\n\n"

/-! ## The timing-line pattern of the specification -/

/-- A field of the pattern, a decimal integer: a non-empty run of digits is
removed from the head of the input. -/
def pattern_digits : List Nat → Option (List Nat)
  | [] => none
  | c :: cs => if isdigit c then some (cs.dropWhile isdigit) else none

/-- A literal part of the pattern: the input must start with these bytes, which are removed. -/
def pattern_lit : List Nat → List Nat → Option (List Nat)
  | [], inp => some inp
  | _ :: _, [] => none
  | c :: cs, d :: ds => if c = d then pattern_lit cs ds else none

/-- The timing-line pattern as the specification words it,
`minutes:seconds.milliseconds --> minutes:seconds.milliseconds` with decimal
integers for the six fields: the input starts with a line of that form. -/
def spec_timing_pattern (inp : List Nat) : Bool :=
  (do
    let r ← pattern_digits inp
    let r ← pattern_lit [58] r
    let r ← pattern_digits r
    let r ← pattern_lit [46] r
    let r ← pattern_digits r
    let r ← pattern_lit (bytes " --> ") r
    let r ← pattern_digits r
    let r ← pattern_lit [58] r
    let r ← pattern_digits r
    let r ← pattern_lit [46] r
    pattern_digits r).isSome

/-- The cursor is just past a terminator that starts where the cue text ends
(`text_end`): one of the blank-line terminators, or the single line terminator
of the fallback. -/
def cursor_past_terminator (buf : List Nat) (text_end cursor : Nat) : Prop :=
  ∃ term, term ∈ [[10, 10], [13, 10, 13, 10], [13, 13], [10], [13]]
    ∧ memread buf text_end term.length = term ∧ cursor = text_end + term.length

/-- The byte sequence `pat` occurs inside `text`. -/
def occurs_in (pat text : List Nat) : Prop := ∃ pre post, text = pre ++ pat ++ post

/-! ## Memory lemmas -/

theorem rd_append_right (pre buf : List Nat) (i : Nat) :
    rd (pre ++ buf) (i + pre.length) = rd buf i := by
  unfold rd
  rw [List.getD_append_right _ _ _ _ (Nat.le_add_left _ _)]
  simp

theorem rd_append_left (buf rest : List Nat) (i : Nat) (h : i < buf.length) :
    rd (buf ++ rest) i = rd buf i := by
  unfold rd
  exact List.getD_append _ _ _ _ h

theorem memeq_append_right (pre buf : List Nat) (pat : List Nat) (p : Nat) :
    memeq (pre ++ buf) (p + pre.length) pat = memeq buf p pat := by
  induction pat generalizing p with
  | nil => rfl
  | cons c cs ih =>
    have h := ih (p + 1)
    rw [Nat.add_right_comm] at h
    simp only [memeq, rd_append_right, h]

theorem memread_append_right (pre buf : List Nat) (p n : Nat) :
    memread (pre ++ buf) (p + pre.length) n = memread buf p n := by
  unfold memread
  apply List.map_congr_left
  intro i _
  rw [Nat.add_right_comm, rd_append_right]

theorem skip_space_loop_append_right (pre buf : List Nat) (len fuel p : Nat) :
    skip_space_loop (pre ++ buf) (len + pre.length) fuel (p + pre.length)
      = skip_space_loop buf len fuel p + pre.length := by
  induction fuel generalizing p with
  | zero => rfl
  | succ n ih =>
    have h := ih (p + 1)
    rw [Nat.add_right_comm] at h
    simp only [skip_space_loop, rd_append_right, Nat.add_lt_add_iff_right, h]
    split <;> rfl

theorem skip_line_loop_append_right (pre buf : List Nat) (len fuel p : Nat) :
    skip_line_loop (pre ++ buf) (len + pre.length) fuel (p + pre.length)
      = skip_line_loop buf len fuel p + pre.length := by
  induction fuel generalizing p with
  | zero => rfl
  | succ n ih =>
    have h := ih (p + 1)
    rw [Nat.add_right_comm] at h
    simp only [skip_line_loop, rd_append_right, Nat.add_lt_add_iff_right, h]
    split <;> rfl

theorem find_blank_loop_append_right (pre buf : List Nat) (len fuel e : Nat) :
    find_blank_loop (pre ++ buf) (len + pre.length) fuel (e + pre.length)
      = find_blank_loop buf len fuel e + pre.length := by
  induction fuel generalizing e with
  | zero => rfl
  | succ n ih =>
    have h := ih (e + 1)
    rw [Nat.add_right_comm] at h
    have h4 : e + pre.length + 4 < len + pre.length ↔ e + 4 < len := by omega
    simp only [find_blank_loop, memeq_append_right, h4, h]
    repeat (first | rfl | split)

theorem skip_space_append_right (pre buf : List Nat) (len p : Nat) :
    skip_space (pre ++ buf) (len + pre.length) (p + pre.length)
      = skip_space buf len p + pre.length := by
  unfold skip_space
  rw [Nat.add_sub_add_right, skip_space_loop_append_right]

theorem skip_line_append_right (pre buf : List Nat) (len p : Nat) :
    skip_line (pre ++ buf) (len + pre.length) (p + pre.length)
      = skip_line buf len p + pre.length := by
  unfold skip_line
  rw [Nat.add_sub_add_right, skip_line_loop_append_right]

theorem find_blank_append_right (pre buf : List Nat) (len e : Nat) :
    find_blank (pre ++ buf) (len + pre.length) (e + pre.length)
      = find_blank buf len e + pre.length := by
  unfold find_blank
  rw [Nat.add_sub_add_right, find_blank_loop_append_right]

/-! ## The loops and their fuel -/

theorem skip_space_loop_ge (buf : List Nat) (len fuel p : Nat) :
    p ≤ skip_space_loop buf len fuel p := by
  induction fuel generalizing p with
  | zero => exact Nat.le_refl _
  | succ n ih =>
    simp only [skip_space_loop]
    split
    · exact Nat.le_trans (Nat.le_succ p) (ih (p + 1))
    · exact Nat.le_refl _

theorem skip_line_loop_ge (buf : List Nat) (len fuel p : Nat) :
    p ≤ skip_line_loop buf len fuel p := by
  induction fuel generalizing p with
  | zero => exact Nat.le_refl _
  | succ n ih =>
    simp only [skip_line_loop]
    split
    · exact Nat.le_trans (Nat.le_succ p) (ih (p + 1))
    · exact Nat.le_refl _

theorem find_blank_loop_ge (buf : List Nat) (len fuel e : Nat) :
    e ≤ find_blank_loop buf len fuel e := by
  induction fuel generalizing e with
  | zero => exact Nat.le_refl _
  | succ n ih =>
    simp only [find_blank_loop]
    repeat (first | exact Nat.le_refl _ | exact Nat.le_trans (Nat.le_succ e) (ih (e + 1)) | split)

/-- The white-space loop obeys the unrolling equation of the `while` statement:
the fuel `length - p` never runs out. -/
theorem skip_space_unroll (buf : List Nat) (len p : Nat) :
    skip_space buf len p
      = if p < len && isspace (rd buf p) then skip_space buf len (p + 1) else p := by
  unfold skip_space
  by_cases h : p < len
  · obtain ⟨k, hk⟩ : ∃ k, len - p = k + 1 := ⟨len - p - 1, by omega⟩
    have hk1 : len - (p + 1) = k := by omega
    rw [hk, hk1]
    rfl
  · have h0 : len - p = 0 := by omega
    rw [h0]
    simp [skip_space_loop, h]

/-- The end-of-line loop obeys the unrolling equation of the `while` statement. -/
theorem skip_line_unroll (buf : List Nat) (len p : Nat) :
    skip_line buf len p
      = if p < len && rd buf p != 13 && rd buf p != 10 then skip_line buf len (p + 1) else p := by
  unfold skip_line
  by_cases h : p < len
  · obtain ⟨k, hk⟩ : ∃ k, len - p = k + 1 := ⟨len - p - 1, by omega⟩
    have hk1 : len - (p + 1) = k := by omega
    rw [hk, hk1]
    rfl
  · have h0 : len - p = 0 := by omega
    rw [h0]
    simp [skip_line_loop, h]

/-- The terminator loop obeys the unrolling equation of the `while` statement. -/
theorem find_blank_unroll (buf : List Nat) (len e : Nat) :
    find_blank buf len e
      = if e + 4 < len then
          if memeq buf e [10, 10] then e
          else if memeq buf e [13, 10, 13, 10] then e
          else if memeq buf e [13, 13] then e
          else find_blank buf len (e + 1)
        else e := by
  unfold find_blank
  by_cases h : e < len
  · obtain ⟨k, hk⟩ : ∃ k, len - e = k + 1 := ⟨len - e - 1, by omega⟩
    have hk1 : len - (e + 1) = k := by omega
    rw [hk, hk1]
    rfl
  · have h0 : len - e = 0 := by omega
    have h4 : ¬ e + 4 < len := by omega
    rw [h0]
    simp [find_blank_loop, h4]

/-! ## `webvtt_parse_cue`: what it leaves alone and how it moves -/

theorem parse_cue_no_more (ctx : webvtt_parser_t)
    (h : (ctx.length : Int) - (ctx.offset : Int) < 24) :
    webvtt_parse_cue ctx = (CueResult.no_more, ctx) := by
  unfold webvtt_parse_cue
  rw [if_pos h]

theorem parse_cue_bad_timestamps (ctx : webvtt_parser_t)
    (h : ¬ (ctx.length : Int) - (ctx.offset : Int) < 24)
    (hs : sscanf_timing (ctx.buffer.drop (cue_scan_start ctx)) = none) :
    webvtt_parse_cue ctx = (CueResult.bad_timestamps, ctx) := by
  unfold cue_scan_start at hs
  unfold webvtt_parse_cue
  rw [if_neg h]
  simp only [hs]

theorem parse_cue_cue (ctx : webvtt_parser_t) (t : Timing)
    (h : ¬ (ctx.length : Int) - (ctx.offset : Int) < 24)
    (hs : sscanf_timing (ctx.buffer.drop (cue_scan_start ctx)) = some t) :
    webvtt_parse_cue ctx
      = (CueResult.cue ⟨to_millis t.smin t.ssec t.smsec, to_millis t.emin t.esec t.emsec,
            memread ctx.buffer (cue_text_start ctx) (cue_text_end ctx - cue_text_start ctx)⟩,
          { ctx with offset := cue_text_end ctx }) := by
  unfold cue_text_end cue_text_start
  unfold cue_scan_start at *
  unfold webvtt_parse_cue
  rw [if_neg h]
  simp only [hs]

theorem cue_text_end_gt (ctx : webvtt_parser_t) : ctx.offset < cue_text_end ctx := by
  have h1 := skip_space_loop_ge ctx.buffer ctx.length (ctx.length - ctx.offset) ctx.offset
  have h2 := skip_line_loop_ge ctx.buffer ctx.length
    (ctx.length - cue_scan_start ctx) (cue_scan_start ctx)
  have h3 := find_blank_loop_ge ctx.buffer ctx.length
    (ctx.length - cue_text_start ctx) (cue_text_start ctx)
  have h4 := skip_line_loop_ge ctx.buffer ctx.length
    (ctx.length - find_blank ctx.buffer ctx.length (cue_text_start ctx))
    (find_blank ctx.buffer ctx.length (cue_text_start ctx))
  unfold cue_text_end cue_text_start cue_scan_start skip_space skip_line find_blank at *
  omega

theorem parse_cue_buffer (ctx : webvtt_parser_t) :
    (webvtt_parse_cue ctx).2.buffer = ctx.buffer ∧ (webvtt_parse_cue ctx).2.length = ctx.length
      ∧ (webvtt_parse_cue ctx).2.state = ctx.state := by
  by_cases h : (ctx.length : Int) - (ctx.offset : Int) < 24
  · rw [parse_cue_no_more ctx h]
    exact ⟨rfl, rfl, rfl⟩
  · cases hs : sscanf_timing (ctx.buffer.drop (cue_scan_start ctx)) with
    | none =>
      rw [parse_cue_bad_timestamps ctx h hs]
      exact ⟨rfl, rfl, rfl⟩
    | some t =>
      rw [parse_cue_cue ctx t h hs]
      exact ⟨rfl, rfl, rfl⟩

theorem parse_cue_advance (ctx ctx1 : webvtt_parser_t) (c : webvtt_cue)
    (hc : webvtt_parse_cue ctx = (CueResult.cue c, ctx1)) :
    ctx.offset + 24 ≤ ctx.length ∧ ctx.offset < ctx1.offset := by
  by_cases h : (ctx.length : Int) - (ctx.offset : Int) < 24
  · rw [parse_cue_no_more ctx h] at hc
    cases hc
  · cases hs : sscanf_timing (ctx.buffer.drop (cue_scan_start ctx)) with
    | none =>
      rw [parse_cue_bad_timestamps ctx h hs] at hc
      cases hc
    | some t =>
      rw [parse_cue_cue ctx t h hs] at hc
      simp only [Prod.mk.injEq] at hc
      obtain ⟨_, h2⟩ := hc
      subst h2
      exact ⟨by omega, cue_text_end_gt ctx⟩

theorem cue_scan_start_rebase (pre : List Nat) (st : Int) (ctx : webvtt_parser_t) :
    cue_scan_start (rebase pre st ctx) = cue_scan_start ctx + pre.length := by
  simp only [cue_scan_start, rebase, skip_space_append_right]

theorem cue_text_start_rebase (pre : List Nat) (st : Int) (ctx : webvtt_parser_t) :
    cue_text_start (rebase pre st ctx) = cue_text_start ctx + pre.length := by
  unfold cue_text_start
  rw [cue_scan_start_rebase]
  simp only [rebase, skip_line_append_right]
  omega

theorem cue_text_end_rebase (pre : List Nat) (st : Int) (ctx : webvtt_parser_t) :
    cue_text_end (rebase pre st ctx) = cue_text_end ctx + pre.length := by
  unfold cue_text_end
  rw [cue_text_start_rebase]
  simp only [rebase, find_blank_append_right, skip_line_append_right]

theorem drop_rebase (pre buf : List Nat) (p : Nat) :
    (pre ++ buf).drop (p + pre.length) = buf.drop p := by
  rw [Nat.add_comm, ← List.drop_drop, List.drop_left]

theorem parse_cue_rebase (pre : List Nat) (st : Int) (ctx : webvtt_parser_t) :
    webvtt_parse_cue (rebase pre st ctx)
      = ((webvtt_parse_cue ctx).1, rebase pre st (webvtt_parse_cue ctx).2) := by
  have hlt : ((((rebase pre st ctx).length : Nat) : Int)
      - (((rebase pre st ctx).offset : Nat) : Int) < 24)
      ↔ ((ctx.length : Int) - (ctx.offset : Int) < 24) := by
    simp only [rebase]
    omega
  have hdrop : sscanf_timing ((rebase pre st ctx).buffer.drop (cue_scan_start (rebase pre st ctx)))
      = sscanf_timing (ctx.buffer.drop (cue_scan_start ctx)) := by
    rw [cue_scan_start_rebase]
    exact congrArg sscanf_timing (drop_rebase pre ctx.buffer _)
  by_cases h : (ctx.length : Int) - (ctx.offset : Int) < 24
  · rw [parse_cue_no_more ctx h, parse_cue_no_more _ (hlt.mpr h)]
  · have h1 : ¬ ((((rebase pre st ctx).length : Nat) : Int)
        - (((rebase pre st ctx).offset : Nat) : Int) < 24) := fun h1 => h (hlt.mp h1)
    cases hs : sscanf_timing (ctx.buffer.drop (cue_scan_start ctx)) with
    | none =>
      rw [parse_cue_bad_timestamps ctx h hs, parse_cue_bad_timestamps _ h1 (hdrop.trans hs)]
    | some t =>
      rw [parse_cue_cue ctx t h hs, parse_cue_cue _ t h1 (hdrop.trans hs)]
      rw [cue_text_end_rebase, cue_text_start_rebase, Nat.add_sub_add_right]
      simp only [rebase, memread_append_right]

/-! ## The cue loop -/

theorem cue_loop_buffer (fuel : Nat) (ctx : webvtt_parser_t) :
    (cue_loop fuel ctx).2.buffer = ctx.buffer ∧ (cue_loop fuel ctx).2.length = ctx.length
      ∧ (cue_loop fuel ctx).2.state = ctx.state := by
  induction fuel generalizing ctx with
  | zero => exact ⟨rfl, rfl, rfl⟩
  | succ n ih =>
    have hb := parse_cue_buffer ctx
    unfold cue_loop
    cases hr : webvtt_parse_cue ctx with
    | mk r ctx1 =>
      rw [hr] at hb
      cases r with
      | cue c =>
        have h1 := ih ctx1
        exact ⟨h1.1.trans hb.1, h1.2.1.trans hb.2.1, h1.2.2.trans hb.2.2⟩
      | no_more => exact hb
      | bad_timestamps => exact hb

/-- With fuel `length - offset` or more the loop never runs out of fuel: it
yields the cues of successive `webvtt_parse_cue` calls up to the first that
yields none. -/
theorem cue_loop_successive (fuel : Nat) (ctx : webvtt_parser_t)
    (h : ctx.length - ctx.offset ≤ fuel) :
    SuccessiveCues ctx (cue_loop fuel ctx).1 (cue_loop fuel ctx).2 := by
  induction fuel generalizing ctx with
  | zero =>
    apply SuccessiveCues.stop_no_more
    apply parse_cue_no_more
    omega
  | succ n ih =>
    unfold cue_loop
    cases hr : webvtt_parse_cue ctx with
    | mk r ctx1 =>
      cases r with
      | cue c =>
        have hadv := parse_cue_advance ctx ctx1 c hr
        have hb := parse_cue_buffer ctx
        rw [hr] at hb
        have hlen : ctx1.length = ctx.length := hb.2.1
        exact SuccessiveCues.next ctx ctx1 _ c _ hr (ih ctx1 (by omega))
      | no_more => exact SuccessiveCues.stop_no_more ctx ctx1 hr
      | bad_timestamps => exact SuccessiveCues.stop_bad_timestamps ctx ctx1 hr

theorem successive_unique (ctx : webvtt_parser_t) (cs : List webvtt_cue) (ctx1 : webvtt_parser_t)
    (h : SuccessiveCues ctx cs ctx1) :
    ∀ (cs2 : List webvtt_cue) (ctx2 : webvtt_parser_t),
      SuccessiveCues ctx cs2 ctx2 → cs2 = cs ∧ ctx2 = ctx1 := by
  induction h with
  | stop_no_more ctx ctx1 hr =>
    intro cs2 ctx2 h2
    cases h2 with
    | stop_no_more _ _ hr2 => rw [hr] at hr2; cases hr2; exact ⟨rfl, rfl⟩
    | stop_bad_timestamps _ _ hr2 => rw [hr] at hr2; cases hr2
    | next _ _ _ _ _ hr2 _ => rw [hr] at hr2; cases hr2
  | stop_bad_timestamps ctx ctx1 hr =>
    intro cs2 ctx2 h2
    cases h2 with
    | stop_no_more _ _ hr2 => rw [hr] at hr2; cases hr2
    | stop_bad_timestamps _ _ hr2 => rw [hr] at hr2; cases hr2; exact ⟨rfl, rfl⟩
    | next _ _ _ _ _ hr2 _ => rw [hr] at hr2; cases hr2
  | next ctx ctx1 ctx3 c cs hr _ ih =>
    intro cs2 ctx2 h2
    cases h2 with
    | stop_no_more _ _ hr2 => rw [hr] at hr2; cases hr2
    | stop_bad_timestamps _ _ hr2 => rw [hr] at hr2; cases hr2
    | next _ ctx4 _ c2 cs3 hr2 hrest =>
      rw [hr] at hr2
      cases hr2
      obtain ⟨h3, h4⟩ := ih cs3 ctx2 hrest
      exact ⟨by rw [h3], h4⟩

theorem cue_loop_rebase (pre : List Nat) (st : Int) (fuel : Nat) (ctx : webvtt_parser_t) :
    cue_loop fuel (rebase pre st ctx)
      = ((cue_loop fuel ctx).1, rebase pre st (cue_loop fuel ctx).2) := by
  induction fuel generalizing ctx with
  | zero => rfl
  | succ n ih =>
    unfold cue_loop
    rw [parse_cue_rebase]
    cases hr : webvtt_parse_cue ctx with
    | mk r ctx1 =>
      cases r with
      | cue c => simp only [ih ctx1]
      | no_more => rfl
      | bad_timestamps => rfl

/-! ## `webvtt_parse` -/

theorem memread_succ (buf : List Nat) (p n : Nat) :
    memread buf p (n + 1) = rd buf p :: memread buf (p + 1) n := by
  unfold memread
  rw [List.range_succ_eq_map, List.map_cons, List.map_map]
  refine congrArg₂ _ rfl ?_
  apply List.map_congr_left
  intro i _
  show rd buf (p + (i + 1)) = rd buf (p + 1 + i)
  rw [Nat.add_assoc, Nat.add_comm 1 i]

theorem memeq_iff_memread (buf : List Nat) (pat : List Nat) (p : Nat) :
    memeq buf p pat = true ↔ memread buf p pat.length = pat := by
  induction pat generalizing p with
  | nil => simp [memeq, memread]
  | cons c cs ih =>
    rw [List.length_cons, memread_succ]
    simp only [memeq, Bool.and_eq_true, beq_iff_eq, List.cons.injEq, ih]

theorem bytes_webvtt : bytes "WEBVTT" = [87, 69, 66, 86, 84, 84] := by decide

theorem cue_chain_successive (ctx : webvtt_parser_t) :
    SuccessiveCues ctx (cue_chain ctx).1 (cue_chain ctx).2 := by
  unfold cue_chain
  cases hr : webvtt_parse_cue ctx with
  | mk r ctx1 =>
    cases r with
    | cue c =>
      exact SuccessiveCues.next ctx ctx1 _ c _ hr (cue_loop_successive _ ctx1 (Nat.le_refl _))
    | no_more => exact SuccessiveCues.stop_no_more ctx ctx1 hr
    | bad_timestamps => exact SuccessiveCues.stop_bad_timestamps ctx ctx1 hr

theorem cue_chain_buffer (ctx : webvtt_parser_t) :
    (cue_chain ctx).2.buffer = ctx.buffer ∧ (cue_chain ctx).2.length = ctx.length
      ∧ (cue_chain ctx).2.state = ctx.state := by
  have hb := parse_cue_buffer ctx
  unfold cue_chain
  cases hr : webvtt_parse_cue ctx with
  | mk r ctx1 =>
    rw [hr] at hb
    cases r with
    | cue c =>
      have h1 := cue_loop_buffer (ctx1.length - ctx1.offset) ctx1
      exact ⟨h1.1.trans hb.1, h1.2.1.trans hb.2.1, h1.2.2.trans hb.2.2⟩
    | no_more => exact hb
    | bad_timestamps => exact hb

theorem cue_chain_rebase (pre : List Nat) (st : Int) (ctx : webvtt_parser_t) :
    cue_chain (rebase pre st ctx) = ((cue_chain ctx).1, rebase pre st (cue_chain ctx).2) := by
  unfold cue_chain
  rw [parse_cue_rebase]
  cases hr : webvtt_parse_cue ctx with
  | mk r ctx1 =>
    cases r with
    | cue c =>
      have hf : (rebase pre st ctx1).length - (rebase pre st ctx1).offset
          = ctx1.length - ctx1.offset := by
        simp only [rebase]
        omega
      simp only [hf, cue_loop_rebase]
    | no_more => rfl
    | bad_timestamps => rfl

theorem parse_too_short (ctx : webvtt_parser_t)
    (h : ctx.length < 6 ∨ (has_bom ctx.buffer = true ∧ ctx.length < 9)) :
    webvtt_parse ctx = (ParseResult.too_short, ctx) := by
  unfold webvtt_parse
  by_cases h6 : ctx.length < 6
  · rw [if_pos h6]
  · rw [if_neg h6]
    rcases h with h | ⟨hb, h9⟩
    · exact absurd h h6
    · simp [hb, h9]

theorem parse_bad_magic (ctx : webvtt_parser_t)
    (h6 : 6 ≤ ctx.length) (h9 : has_bom ctx.buffer = true → 9 ≤ ctx.length)
    (hm : memeq ctx.buffer (if has_bom ctx.buffer then 3 else 0) (bytes "WEBVTT") = false) :
    webvtt_parse ctx = (ParseResult.bad_magic, ctx) := by
  unfold webvtt_parse
  rw [if_neg (by omega)]
  by_cases hb : has_bom ctx.buffer = true
  · have := h9 hb
    have h9f : ¬ ctx.length < 9 := by omega
    simp only [hb, if_true] at hm
    simp [hb, h9f, hm]
  · simp only [Bool.not_eq_true] at hb
    simp only [hb, Bool.false_eq_true, if_false] at hm
    simp [hb, hm]

theorem parse_accepted (ctx : webvtt_parser_t)
    (h6 : 6 ≤ ctx.length) (h9 : has_bom ctx.buffer = true → 9 ≤ ctx.length)
    (hm : memeq ctx.buffer (if has_bom ctx.buffer then 3 else 0) (bytes "WEBVTT") = true) :
    webvtt_parse ctx
      = (ParseResult.cues (cue_chain { ctx with offset := signature_end ctx }).1,
          (cue_chain { ctx with offset := signature_end ctx }).2) := by
  unfold webvtt_parse
  rw [if_neg (by omega)]
  by_cases hb : has_bom ctx.buffer = true
  · have := h9 hb
    have h9f : ¬ ctx.length < 9 := by omega
    simp only [hb, if_true] at hm
    simp [hb, h9f, hm]
  · simp only [Bool.not_eq_true] at hb
    simp only [hb, Bool.false_eq_true, if_false] at hm
    simp [hb, hm]

theorem has_bom_iff (buf : List Nat) : has_bom buf = true ↔ memread buf 0 3 = [239, 187, 191] := by
  simp [has_bom, memread, List.range, List.range.loop, and_assoc]

theorem has_bom_false_iff (buf : List Nat) :
    has_bom buf = false ↔ memread buf 0 3 ≠ [239, 187, 191] := by
  rw [Ne, ← has_bom_iff]
  simp

theorem parse_of_valid_signature (ctx : webvtt_parser_t) (h : valid_signature ctx) :
    webvtt_parse ctx
      = (ParseResult.cues (cue_chain { ctx with offset := signature_end ctx }).1,
          (cue_chain { ctx with offset := signature_end ctx }).2) := by
  have hl : (bytes "WEBVTT").length = 6 := by decide
  rcases h with ⟨hb, h6, hm⟩ | ⟨hb, h9, hm⟩
  · rw [← has_bom_false_iff] at hb
    apply parse_accepted ctx h6
    · intro h1
      rw [hb] at h1
      cases h1
    · rw [hb]
      rw [← hl] at hm
      exact (memeq_iff_memread _ _ _).mpr hm
  · rw [← has_bom_iff] at hb
    apply parse_accepted ctx (by omega) (fun _ => h9)
    rw [hb]
    rw [← hl] at hm
    exact (memeq_iff_memread _ _ _).mpr hm

theorem parse_buffer_fields (ctx : webvtt_parser_t) :
    (webvtt_parse ctx).2.buffer = ctx.buffer ∧ (webvtt_parse ctx).2.length = ctx.length
      ∧ (webvtt_parse ctx).2.state = ctx.state := by
  by_cases h : ctx.length < 6 ∨ (has_bom ctx.buffer = true ∧ ctx.length < 9)
  · rw [parse_too_short ctx h]
    exact ⟨rfl, rfl, rfl⟩
  · have h6 : 6 ≤ ctx.length := by omega
    have h9 : has_bom ctx.buffer = true → 9 ≤ ctx.length := by
      intro hb
      by_contra h9
      exact h (Or.inr ⟨hb, by omega⟩)
    cases hm : memeq ctx.buffer (if has_bom ctx.buffer then 3 else 0) (bytes "WEBVTT") with
    | false =>
      rw [parse_bad_magic ctx h6 h9 hm]
      exact ⟨rfl, rfl, rfl⟩
    | true =>
      rw [parse_accepted ctx h6 h9 hm]
      exact cue_chain_buffer _

theorem skip_space_cons (c : Nat) (buf : List Nat) (len p : Nat) :
    skip_space (c :: buf) (len + 1) (p + 1) = skip_space buf len p + 1 :=
  skip_space_append_right [c] buf len p

theorem skip_space_run (ws rest : List Nat) (h : ∀ c ∈ ws, isspace c = true) :
    skip_space (ws ++ rest) ws.length 0 = ws.length := by
  induction ws with
  | nil => rfl
  | cons c cs ih =>
    rw [skip_space_unroll]
    have hc : isspace c = true := h c (List.mem_cons_self _ _)
    have h0 : rd (c :: cs ++ rest) 0 = c := rfl
    simp only [List.length_cons, Nat.zero_lt_succ, h0, hc, decide_True, Bool.and_self, if_true]
    have h1 := skip_space_cons c (cs ++ rest) cs.length 0
    simp only [Nat.zero_add] at h1
    rw [List.cons_append, h1, ih (fun d hd => h d (List.mem_cons_of_mem _ hd))]

/-! ## The claims -/

/-- Claim C1 (code defect): the scenario of the specification parses as stated, one
cue with start 1000, end 2500 and text `Hello`; but for the well-formed
single-cue document whose text block is `Hello\nabc\nd`, `webvtt_parse`
returns one cue whose text is `Hello\nabc`, not the bytes up to the blank-line
terminator: the four-byte lookahead of the terminator loop stops short of the
end of the staged bytes and the second loop then ends the text at the first
single line terminator. -/
theorem C1_text_cut_at_line_break :
    (webvtt_parse_buffer (webvtt_parse_new []) doc_hello).1
        = ParseResult.cues [⟨1000, 2500, bytes "Hello"⟩]
      ∧ (webvtt_parse_buffer (webvtt_parse_new []) doc_three_lines).1
        = ParseResult.cues [⟨1000, 2500, bytes "Hello\nabc"⟩]
      ∧ bytes "Hello\nabc" ≠ bytes "Hello\nabc\nd" := by
  refine ⟨by decide, by decide, by decide⟩

/-- Claim C2 (code defect): the timing line `00:01.001 --> 00:02.500` is accepted
with the fields 0, 1, 1 and 0, 2, 500, and the cue it produces starts at 1000,
not at 60000*0 + 1000*1 + 1 = 1001: the product of the `double`
1.001 by `1e3` is just below 1001 and the conversion to an integer discards the
fraction. -/
theorem C2_start_one_milli_short :
    sscanf_timing (doc_one_milli.drop 8) = some ⟨0, 1, 1, 0, 2, 500⟩
      ∧ (webvtt_parse_cue ⟨0, doc_one_milli, 8, 39⟩).1
        = CueResult.cue ⟨1000, 2500, bytes "Hello"⟩
      ∧ to_millis 0 1 1 = 1000 := by
  refine ⟨by decide, by decide, by decide⟩

/-- Claim C4 (code defect): for the cue with start 1000 and end 2500 that
`webvtt_parse` produces from the scenario document, `webvtt_print_cue` writes
`00:00:01.000 --> 00:00:02.000`: the millisecond field of the end time is the
one computed for the start time, so the second timestamp denotes 2000, not
the cue's end 2500. -/
theorem C4_end_millis_from_start :
    (webvtt_parse_buffer (webvtt_parse_new []) doc_hello).1
        = ParseResult.cues [⟨1000, 2500, bytes "Hello"⟩]
      ∧ webvtt_print_cue ⟨1000, 2500, bytes "Hello"⟩
        = bytes "00:00:01.000 --> 00:00:02.000\nHello\n\n"
      ∧ print_fields ⟨1000, 2500, bytes "Hello"⟩ = ⟨0, 0, 1, 0, 0, 0, 2, 0⟩
      ∧ (0 : Int) * 3600000 + 0 * 60000 + 2 * 1000 + 0 ≠ 2500 := by
  refine ⟨by decide, by decide, by decide, by decide⟩

/-- Claim C5 (code defect): after `AB` and then `C` are fed to a fresh session, the
three staged bytes are `C`, `B` and a byte that was never written, not `ABC`:
`memcpy` writes every chunk at the start of the buffer while `length` grows. -/
theorem C5_feed_overwrites_start :
    (webvtt_parse_buffer (webvtt_parse_buffer (webvtt_parse_new [0, 0, 0, 0]) (bytes "AB")).2
        (bytes "C")).2
      = ⟨0, bytes "CB" ++ [0, 0], 0, 3⟩
    ∧ memread (bytes "CB" ++ [0, 0]) 0 3 ≠ bytes "AB" ++ bytes "C" := by
  refine ⟨by decide, by decide⟩

/-- When the memory after the staged bytes is the same (`rest`) in both
sessions, `webvtt_parse` returns the same result (the same diagnostic, or the
same chain of cues) for a session that holds EF BB BF followed by `D` as for a
session that holds `D`, for every `D` that does not begin with the byte-order
mark. -/
theorem bom_transparent_same_tail (D rest : List Nat) (stA stB : Int) (offA offB : Nat)
    (hD : D.take 3 ≠ [239, 187, 191]) (_hcap : D.length + 3 ≤ BUFFER_SIZE) :
    (webvtt_parse ⟨stA, [239, 187, 191] ++ D ++ rest, offA, D.length + 3⟩).1
      = (webvtt_parse ⟨stB, D ++ rest, offB, D.length⟩).1 := by
  have hbomA : has_bom ([239, 187, 191] ++ D ++ rest) = true := by
    simp [has_bom, rd]
  by_cases h6 : D.length < 6
  · rw [parse_too_short ⟨stB, D ++ rest, offB, D.length⟩ (Or.inl h6)]
    rw [parse_too_short ⟨stA, [239, 187, 191] ++ D ++ rest, offA, D.length + 3⟩
      (Or.inr ⟨hbomA, by show D.length + 3 < 9; omega⟩)]
  · have hbomB : has_bom (D ++ rest) = false := by
      rcases D with _ | ⟨a, _ | ⟨b, _ | ⟨c, D1⟩⟩⟩
      · simp at h6
      · simp at h6
      · simp at h6
      · simp only [List.take_succ_cons, List.take_zero, ne_eq, List.cons.injEq, and_true,
          not_and] at hD
        simp only [has_bom, rd, List.cons_append, List.getD_cons_zero, List.getD_cons_succ,
          Bool.and_eq_false_imp, Bool.and_eq_true, beq_iff_eq, beq_eq_false_iff_ne, ne_eq,
          and_imp]
        exact hD
    have hmem : memeq ([239, 187, 191] ++ D ++ rest) 3 (bytes "WEBVTT")
        = memeq (D ++ rest) 0 (bytes "WEBVTT") := by
      rw [List.append_assoc]
      exact memeq_append_right [239, 187, 191] (D ++ rest) (bytes "WEBVTT") 0
    have h6A : 6 ≤ D.length + 3 := by omega
    have h9A : has_bom ([239, 187, 191] ++ D ++ rest) = true → 9 ≤ D.length + 3 := by
      intro _
      omega
    have h6B : 6 ≤ D.length := by omega
    have h9B : has_bom (D ++ rest) = true → 9 ≤ D.length := by
      intro h1
      rw [hbomB] at h1
      cases h1
    cases hm : memeq (D ++ rest) 0 (bytes "WEBVTT") with
    | false =>
      rw [parse_bad_magic ⟨stA, [239, 187, 191] ++ D ++ rest, offA, D.length + 3⟩ h6A h9A
        (by simpa [hbomA, hmem] using hm)]
      rw [parse_bad_magic ⟨stB, D ++ rest, offB, D.length⟩ h6B h9B (by simpa [hbomB] using hm)]
    | true =>
      rw [parse_accepted ⟨stA, [239, 187, 191] ++ D ++ rest, offA, D.length + 3⟩ h6A h9A
        (by simpa [hbomA, hmem] using hm)]
      rw [parse_accepted ⟨stB, D ++ rest, offB, D.length⟩ h6B h9B (by simpa [hbomB] using hm)]
      have hend : signature_end ⟨stA, [239, 187, 191] ++ D ++ rest, offA, D.length + 3⟩
          = signature_end ⟨stB, D ++ rest, offB, D.length⟩ + 3 := by
        simp only [signature_end, hbomA, hbomB, if_true, Bool.false_eq_true, if_false]
        rw [List.append_assoc]
        exact skip_space_append_right [239, 187, 191] (D ++ rest) D.length 6
      have key : ∀ eB : Nat,
          (cue_chain ⟨stA, [239, 187, 191] ++ D ++ rest, eB + 3, D.length + 3⟩).1
            = (cue_chain ⟨stB, D ++ rest, eB, D.length⟩).1 := by
        intro eB
        have h1 := cue_chain_rebase [239, 187, 191] stA ⟨stB, D ++ rest, eB, D.length⟩
        simp only [rebase, List.length_cons, List.length_nil, Nat.zero_add, Nat.reduceAdd,
          ← List.append_assoc] at h1
        rw [h1]
      dsimp only
      rw [hend, key]

/-- Claim C3 (code defect): two fresh sessions get the same buffer contents
from `malloc` (`mem_seven`); one is fed the 32 bytes of `doc_unterminated`,
which do not begin with the byte-order mark, the other EF BB BF followed by
the same 32 bytes.  `webvtt_parse` returns a cue that ends at 52007 for the
first and at 7000 for the second: the last `%d` of `sscanf` reads on past
`length`, into the byte at index 32 without the mark and into the byte at
index 35 with it. -/
theorem C3_bom_changes_result :
    doc_unterminated.take 3 ≠ [239, 187, 191]
      ∧ doc_unterminated.length + 3 ≤ BUFFER_SIZE
      ∧ doc_unterminated_bom = [239, 187, 191] ++ doc_unterminated
      ∧ (webvtt_parse_buffer (webvtt_parse_new mem_seven) doc_unterminated).1
        = ParseResult.cues [⟨1000, 52007, []⟩]
      ∧ (webvtt_parse_buffer (webvtt_parse_new mem_seven) doc_unterminated_bom).1
        = ParseResult.cues [⟨1000, 7000, []⟩]
      ∧ (webvtt_parse_buffer (webvtt_parse_new mem_seven) doc_unterminated_bom).1
        ≠ (webvtt_parse_buffer (webvtt_parse_new mem_seven) doc_unterminated).1 := by
  refine ⟨by decide, by decide, rfl, by decide, by decide, by decide⟩

/-- Claim C6: for every session with `length <= BUFFER_SIZE` and every chunk,
`webvtt_parse_buffer` increases `length` by exactly
`min(len(chunk), BUFFER_SIZE - length)`; so `length` stays within
`BUFFER_SIZE`, no byte at an index at or beyond `BUFFER_SIZE` is written, and
the bytes of the chunk beyond the remaining capacity are dropped: the call
returns the same result and session as for the chunk cut to the remaining
capacity. -/
theorem C6_feed_bounded (ctx : webvtt_parser_t) (chunk : List Nat)
    (h : ctx.length ≤ BUFFER_SIZE) :
    (webvtt_parse_buffer ctx chunk).2.length
        = ctx.length + min chunk.length (BUFFER_SIZE - ctx.length)
      ∧ (webvtt_parse_buffer ctx chunk).2.length ≤ BUFFER_SIZE
      ∧ (∀ i, BUFFER_SIZE ≤ i →
          rd (webvtt_parse_buffer ctx chunk).2.buffer i = rd ctx.buffer i)
      ∧ webvtt_parse_buffer ctx (chunk.take (BUFFER_SIZE - ctx.length))
          = webvtt_parse_buffer ctx chunk := by
  have hB : BUFFER_SIZE = 4096 := rfl
  rw [hB] at h ⊢
  have hn : (min (chunk.length : Int) (((4096 : Nat) : Int) - (ctx.length : Int))).toNat
      = min chunk.length (4096 - ctx.length) := by omega
  have hl : ((ctx.length : Int)
      + min (chunk.length : Int) (((4096 : Nat) : Int) - (ctx.length : Int))).toNat
      = ctx.length + min chunk.length (4096 - ctx.length) := by omega
  have hlen : (webvtt_parse_buffer ctx chunk).2.length
      = ctx.length + min chunk.length (4096 - ctx.length) := by
    unfold webvtt_parse_buffer
    rw [(parse_buffer_fields _).2.1, hB]
    exact hl
  have hbuf : (webvtt_parse_buffer ctx chunk).2.buffer
      = memcpy ctx.buffer chunk (min chunk.length (4096 - ctx.length)) := by
    unfold webvtt_parse_buffer
    rw [(parse_buffer_fields _).1, hB]
    simp only [hn]
  refine ⟨hlen, by rw [hlen]; omega, ?_, ?_⟩
  · intro i hi
    rw [hbuf]
    unfold memcpy rd
    have hle : min chunk.length (4096 - ctx.length) ≤ i := by omega
    rw [List.getD_append_right _ _ _ _ (by simpa using hle)]
    simp only [List.length_map, List.length_range, List.getD_eq_getElem?_getD,
      List.getElem?_drop]
    rw [Nat.add_sub_cancel' hle]
  · unfold webvtt_parse_buffer
    rw [hB]
    have hn2 : (min ((chunk.take (4096 - ctx.length)).length : Int)
        (((4096 : Nat) : Int) - (ctx.length : Int))).toNat
        = min chunk.length (4096 - ctx.length) := by
      rw [List.length_take]
      omega
    have hl2 : ((ctx.length : Int) + min ((chunk.take (4096 - ctx.length)).length : Int)
        (((4096 : Nat) : Int) - (ctx.length : Int))).toNat
        = ctx.length + min chunk.length (4096 - ctx.length) := by
      rw [List.length_take]
      omega
    have hcopy : memcpy ctx.buffer (chunk.take (4096 - ctx.length))
          (min chunk.length (4096 - ctx.length))
        = memcpy ctx.buffer chunk (min chunk.length (4096 - ctx.length)) := by
      unfold memcpy
      refine congrArg₂ _ ?_ rfl
      apply List.map_congr_left
      intro i hi
      rw [List.mem_range] at hi
      unfold rd
      simp only [List.getD_eq_getElem?_getD]
      rw [List.getElem?_take_of_lt (by omega)]
    simp only [hn, hl, hn2, hl2, hcopy]

/-- Witness of claim C6: ten bytes fed to a session that has room for six. -/
theorem C6_feed_bounded_witness :
    (4090 : Nat) ≤ BUFFER_SIZE
      ∧ ((webvtt_parse_buffer ⟨0, [], 0, 4090⟩ (List.replicate 10 65)).2.length
          = 4090 + min (List.replicate 10 65).length (BUFFER_SIZE - 4090)
        ∧ (webvtt_parse_buffer ⟨0, [], 0, 4090⟩ (List.replicate 10 65)).2.length ≤ BUFFER_SIZE
        ∧ (∀ i, BUFFER_SIZE ≤ i →
            rd (webvtt_parse_buffer ⟨0, [], 0, 4090⟩ (List.replicate 10 65)).2.buffer i
              = rd [] i)
        ∧ webvtt_parse_buffer ⟨0, [], 0, 4090⟩ ((List.replicate 10 65).take (BUFFER_SIZE - 4090))
            = webvtt_parse_buffer ⟨0, [], 0, 4090⟩ (List.replicate 10 65)) :=
  ⟨by decide, C6_feed_bounded ⟨0, [], 0, 4090⟩ (List.replicate 10 65) (by decide)⟩

/-- Claim C7: `webvtt_parse` returns through the "Too short" diagnostic, with no cue
and the session untouched, for every session that holds fewer than 6 bytes and
for every session whose buffer starts with the byte-order mark EF BB BF and
that holds fewer than 9 bytes. -/
theorem C7_too_short (ctx : webvtt_parser_t)
    (h : ctx.length < 6 ∨ (memread ctx.buffer 0 3 = [239, 187, 191] ∧ ctx.length < 9)) :
    webvtt_parse ctx = (ParseResult.too_short, ctx) := by
  apply parse_too_short
  rcases h with h | ⟨hb, h9⟩
  · exact Or.inl h
  · exact Or.inr ⟨(has_bom_iff _).mpr hb, h9⟩

/-- Witness of claim C7: the byte-order mark and five more bytes. -/
theorem C7_too_short_witness :
    ((8 : Nat) < 6 ∨ (memread (239 :: 187 :: 191 :: bytes "WEBVT") 0 3 = [239, 187, 191]
        ∧ (8 : Nat) < 9))
      ∧ webvtt_parse ⟨0, 239 :: 187 :: 191 :: bytes "WEBVT", 0, 8⟩
        = (ParseResult.too_short, ⟨0, 239 :: 187 :: 191 :: bytes "WEBVT", 0, 8⟩) :=
  ⟨Or.inr ⟨by decide, by decide⟩,
    C7_too_short ⟨0, 239 :: 187 :: 191 :: bytes "WEBVT", 0, 8⟩ (Or.inr ⟨by decide, by decide⟩)⟩

/-- Claim C8: for every session that holds at least 6 bytes (at least 9 when the
buffer starts with the byte-order mark) and whose 6 bytes after the optional
byte-order mark are not `WEBVTT`, `webvtt_parse` returns through the
"Bad magic" diagnostic, with no cue and the session untouched. -/
theorem C8_bad_signature (ctx : webvtt_parser_t)
    (h : (memread ctx.buffer 0 3 ≠ [239, 187, 191] ∧ 6 ≤ ctx.length
          ∧ memread ctx.buffer 0 6 ≠ bytes "WEBVTT")
        ∨ (memread ctx.buffer 0 3 = [239, 187, 191] ∧ 9 ≤ ctx.length
          ∧ memread ctx.buffer 3 6 ≠ bytes "WEBVTT")) :
    webvtt_parse ctx = (ParseResult.bad_magic, ctx) := by
  have hl : (bytes "WEBVTT").length = 6 := by decide
  rcases h with ⟨hb, h6, hm⟩ | ⟨hb, h9, hm⟩
  · rw [← has_bom_false_iff] at hb
    apply parse_bad_magic ctx h6
    · intro h1
      rw [hb] at h1
      cases h1
    · rw [hb]
      rw [← hl] at hm
      simpa using (fun h2 => hm ((memeq_iff_memread _ _ _).mp h2))
  · rw [← has_bom_iff] at hb
    apply parse_bad_magic ctx (by omega) (fun _ => h9)
    rw [hb]
    rw [← hl] at hm
    simpa using (fun h2 => hm ((memeq_iff_memread _ _ _).mp h2))

/-- Witness of claim C8: seven bytes that start with `WEBVTX`. -/
theorem C8_bad_signature_witness :
    ((memread (bytes "WEBVTX\n") 0 3 ≠ [239, 187, 191] ∧ 6 ≤ (7 : Nat)
          ∧ memread (bytes "WEBVTX\n") 0 6 ≠ bytes "WEBVTT")
        ∨ (memread (bytes "WEBVTX\n") 0 3 = [239, 187, 191] ∧ 9 ≤ (7 : Nat)
          ∧ memread (bytes "WEBVTX\n") 3 6 ≠ bytes "WEBVTT"))
      ∧ webvtt_parse ⟨0, bytes "WEBVTX\n", 0, 7⟩
        = (ParseResult.bad_magic, ⟨0, bytes "WEBVTX\n", 0, 7⟩) :=
  ⟨Or.inl ⟨by decide, by decide, by decide⟩,
    C8_bad_signature ⟨0, bytes "WEBVTX\n", 0, 7⟩ (Or.inl ⟨by decide, by decide, by decide⟩)⟩

/-- Claim C9: when the staged bytes are `WEBVTT` followed only by white-space bytes
(space, tab, CR, LF, vertical tab, form feed; none at all for the document that
is exactly `WEBVTT`), `webvtt_parse` returns the empty chain of cues through
neither signature diagnostic, whatever lies in memory after the staged bytes;
the cursor is left at the end of the staged bytes, which is where the white
space after the signature ends, and the one `webvtt_parse_cue` call that is
made there returns through the "no more cues" return, not through the
"Couldn't parse cue timestamps" diagnostic: no error is reported. -/
theorem C9_signature_only (st : Int) (off : Nat) (ws rest : List Nat)
    (h : ∀ c ∈ ws, c ∈ [32, 9, 13, 10, 11, 12]) :
    webvtt_parse ⟨st, bytes "WEBVTT" ++ ws ++ rest, off, 6 + ws.length⟩
        = (ParseResult.cues [],
            ⟨st, bytes "WEBVTT" ++ ws ++ rest, 6 + ws.length, 6 + ws.length⟩)
      ∧ signature_end ⟨st, bytes "WEBVTT" ++ ws ++ rest, off, 6 + ws.length⟩ = 6 + ws.length
      ∧ webvtt_parse_cue ⟨st, bytes "WEBVTT" ++ ws ++ rest, 6 + ws.length, 6 + ws.length⟩
        = (CueResult.no_more,
            ⟨st, bytes "WEBVTT" ++ ws ++ rest, 6 + ws.length, 6 + ws.length⟩) := by
  have hsp : ∀ c ∈ ws, isspace c = true := by
    intro c hc
    have h1 := h c hc
    simp only [List.mem_cons, List.mem_singleton, List.not_mem_nil, or_false] at h1
    rcases h1 with h1 | h1 | h1 | h1 | h1 | h1 <;> subst h1 <;> decide
  have hbom : has_bom (bytes "WEBVTT" ++ ws ++ rest) = false := by
    rw [bytes_webvtt]
    simp [has_bom, rd]
  have hmag : memeq (bytes "WEBVTT" ++ ws ++ rest) 0 (bytes "WEBVTT") = true := by
    rw [bytes_webvtt]
    simp [memeq, rd]
  have hend : skip_space (bytes "WEBVTT" ++ ws ++ rest) (6 + ws.length) 6 = 6 + ws.length := by
    have h1 := skip_space_append_right (bytes "WEBVTT") (ws ++ rest) ws.length 0
    rw [skip_space_run ws rest hsp] at h1
    have hl : (bytes "WEBVTT").length = 6 := by decide
    rw [hl, Nat.zero_add, ← List.append_assoc] at h1
    rw [Nat.add_comm 6, h1]
  have h9 : has_bom (bytes "WEBVTT" ++ ws ++ rest) = true → 9 ≤ 6 + ws.length := by
    intro h1
    rw [hbom] at h1
    cases h1
  have hsig : signature_end ⟨st, bytes "WEBVTT" ++ ws ++ rest, off, 6 + ws.length⟩
      = 6 + ws.length := by
    simp only [signature_end, hbom, Bool.false_eq_true, if_false, Nat.zero_add, hend]
  have hcue : webvtt_parse_cue ⟨st, bytes "WEBVTT" ++ ws ++ rest, 6 + ws.length, 6 + ws.length⟩
      = (CueResult.no_more,
          ⟨st, bytes "WEBVTT" ++ ws ++ rest, 6 + ws.length, 6 + ws.length⟩) :=
    parse_cue_no_more _ (by simp)
  refine ⟨?_, hsig, hcue⟩
  rw [parse_accepted _ (Nat.le_add_right 6 _) h9 (by simpa [hbom] using hmag)]
  simp only [hsig]
  unfold cue_chain
  rw [hcue]

/-- Witness of claim C9: `WEBVTT`, five white-space bytes, and two digits in memory after the staged bytes. -/
theorem C9_signature_only_witness :
    (∀ c ∈ [10, 13, 10, 32, 9], c ∈ [32, 9, 13, 10, 11, 12])
      ∧ webvtt_parse ⟨0, bytes "WEBVTT" ++ [10, 13, 10, 32, 9] ++ [48, 48], 0,
            6 + [10, 13, 10, 32, 9].length⟩
          = (ParseResult.cues [],
              ⟨0, bytes "WEBVTT" ++ [10, 13, 10, 32, 9] ++ [48, 48],
                6 + [10, 13, 10, 32, 9].length, 6 + [10, 13, 10, 32, 9].length⟩)
        ∧ signature_end ⟨0, bytes "WEBVTT" ++ [10, 13, 10, 32, 9] ++ [48, 48], 0,
            6 + [10, 13, 10, 32, 9].length⟩ = 6 + [10, 13, 10, 32, 9].length
        ∧ webvtt_parse_cue ⟨0, bytes "WEBVTT" ++ [10, 13, 10, 32, 9] ++ [48, 48],
            6 + [10, 13, 10, 32, 9].length, 6 + [10, 13, 10, 32, 9].length⟩
          = (CueResult.no_more,
              ⟨0, bytes "WEBVTT" ++ [10, 13, 10, 32, 9] ++ [48, 48],
                6 + [10, 13, 10, 32, 9].length, 6 + [10, 13, 10, 32, 9].length⟩) :=
  ⟨by decide, C9_signature_only 0 0 [10, 13, 10, 32, 9] [48, 48] (by decide)⟩

/-- Claim C10: after a valid signature the chain that `webvtt_parse` returns is
exactly the sequence of cues yielded by successive `webvtt_parse_cue` calls, in
call order, up to the first call that yields no cue, be it for lack of bytes or
for a malformed timing line; such a sequence always exists (the loop
terminates), so the cues extracted before a malformed timing line are all
returned, in order. -/
theorem C10_cues_in_call_order (ctx : webvtt_parser_t) (h : valid_signature ctx) :
    (∃ cs ctx1, SuccessiveCues { ctx with offset := signature_end ctx } cs ctx1)
      ∧ ∀ cs ctx1, SuccessiveCues { ctx with offset := signature_end ctx } cs ctx1 →
          webvtt_parse ctx = (ParseResult.cues cs, ctx1) := by
  have hs := cue_chain_successive { ctx with offset := signature_end ctx }
  refine ⟨⟨_, _, hs⟩, ?_⟩
  intro cs ctx1 h1
  obtain ⟨h2, h3⟩ := successive_unique _ _ _ hs cs ctx1 h1
  rw [parse_of_valid_signature ctx h, h2, h3]

/-- Witness of claim C10: the second timing line of `doc_bad_second` is
malformed and the chain returned is the one cue extracted before it. -/
theorem C10_cues_in_call_order_witness :
    valid_signature ⟨0, doc_bad_second, 0, 70⟩
      ∧ webvtt_parse ⟨0, doc_bad_second, 0, 70⟩
        = (ParseResult.cues [⟨1000, 2500, bytes "Hello"⟩], ⟨0, doc_bad_second, 37, 70⟩) :=
  ⟨Or.inl ⟨by decide, by decide, by decide⟩,
    (C10_cues_in_call_order ⟨0, doc_bad_second, 0, 70⟩
        (Or.inl ⟨by decide, by decide, by decide⟩)).2
      [⟨1000, 2500, bytes "Hello"⟩] ⟨0, doc_bad_second, 37, 70⟩
      (SuccessiveCues.next _ ⟨0, doc_bad_second, 37, 70⟩ _ _ _ (by decide)
        (SuccessiveCues.stop_bad_timestamps _ _ (by decide)))⟩

/-! ## Where the loops stop -/

theorem skip_line_loop_between (buf : List Nat) (len fuel p j : Nat)
    (h1 : p ≤ j) (h2 : j < skip_line_loop buf len fuel p) :
    j < len ∧ rd buf j ≠ 13 ∧ rd buf j ≠ 10 := by
  induction fuel generalizing p with
  | zero => exact absurd h2 (by simp only [skip_line_loop]; omega)
  | succ n ih =>
    simp only [skip_line_loop] at h2
    split at h2
    · rename_i hc
      simp only [Bool.and_eq_true, decide_eq_true_eq, bne_iff_ne, ne_eq] at hc
      by_cases hj : j = p
      · subst hj
        exact ⟨hc.1.1, hc.1.2, hc.2⟩
      · exact ih (p + 1) (by omega) h2
    · omega

theorem skip_line_loop_stop (buf : List Nat) (len fuel p : Nat)
    (hf : len - p ≤ fuel) (h : skip_line_loop buf len fuel p < len) :
    rd buf (skip_line_loop buf len fuel p) = 13 ∨ rd buf (skip_line_loop buf len fuel p) = 10 := by
  induction fuel generalizing p with
  | zero =>
    simp only [skip_line_loop] at h
    omega
  | succ n ih =>
    simp only [skip_line_loop] at h ⊢
    split
    · rename_i hc
      rw [if_pos hc] at h
      exact ih (p + 1) (by omega) h
    · rename_i hc
      rw [if_neg hc] at h
      simp only [Bool.and_eq_true, decide_eq_true_eq, bne_iff_ne, ne_eq, not_and, not_not] at hc
      by_cases h13 : rd buf p = 13
      · exact Or.inl h13
      · exact Or.inr (hc ⟨h, h13⟩)

theorem skip_line_loop_le (buf : List Nat) (len fuel p : Nat) (h : p ≤ len) :
    skip_line_loop buf len fuel p ≤ len := by
  induction fuel generalizing p with
  | zero => exact h
  | succ n ih =>
    simp only [skip_line_loop]
    split
    · rename_i hc
      simp only [Bool.and_eq_true, decide_eq_true_eq, bne_iff_ne, ne_eq] at hc
      exact ih (p + 1) (by omega)
    · exact h

theorem find_blank_loop_between (buf : List Nat) (len fuel p j : Nat)
    (h1 : p ≤ j) (h2 : j < find_blank_loop buf len fuel p) :
    j + 4 < len ∧ memeq buf j [10, 10] = false ∧ memeq buf j [13, 10, 13, 10] = false
      ∧ memeq buf j [13, 13] = false := by
  induction fuel generalizing p with
  | zero => exact absurd h2 (by simp only [find_blank_loop]; omega)
  | succ n ih =>
    simp only [find_blank_loop] at h2
    split at h2
    · rename_i h4
      split at h2
      · omega
      · rename_i ha
        split at h2
        · omega
        · rename_i hb
          split at h2
          · omega
          · rename_i hc
            by_cases hj : j = p
            · subst hj
              simp only [Bool.not_eq_true] at ha hb hc
              exact ⟨h4, ha, hb, hc⟩
            · exact ih (p + 1) (by omega) h2
    · omega

theorem find_blank_loop_le (buf : List Nat) (len fuel p : Nat) (h : p ≤ len) :
    find_blank_loop buf len fuel p ≤ len := by
  induction fuel generalizing p with
  | zero => exact h
  | succ n ih =>
    simp only [find_blank_loop]
    split
    · rename_i h4
      repeat (first | exact h | exact ih (p + 1) (by omega) | split)
    · exact h

theorem skip_line_of_le (buf : List Nat) (len p : Nat) (h : len ≤ p) :
    skip_line buf len p = p := by
  unfold skip_line
  rw [Nat.sub_eq_zero_of_le h]
  rfl

theorem find_blank_of_le (buf : List Nat) (len p : Nat) (h : len ≤ p) :
    find_blank buf len p = p := by
  unfold find_blank
  rw [Nat.sub_eq_zero_of_le h]
  rfl

theorem cue_text_start_le_end (ctx : webvtt_parser_t) : cue_text_start ctx ≤ cue_text_end ctx := by
  unfold cue_text_end
  exact Nat.le_trans (find_blank_loop_ge _ _ _ _) (skip_line_loop_ge _ _ _ _)

theorem cue_text_end_le (ctx : webvtt_parser_t) (h : cue_text_start ctx ≤ ctx.length) :
    cue_text_end ctx ≤ ctx.length := by
  unfold cue_text_end
  exact skip_line_loop_le _ _ _ _ (find_blank_loop_le _ _ _ _ h)

theorem cue_text_end_of_gt (ctx : webvtt_parser_t) (h : ctx.length < cue_text_start ctx) :
    cue_text_end ctx = cue_text_start ctx := by
  unfold cue_text_end
  rw [find_blank_of_le _ _ _ (Nat.le_of_lt h), skip_line_of_le _ _ _ (Nat.le_of_lt h)]

theorem cue_text_end_stop (ctx : webvtt_parser_t) (h : cue_text_end ctx < ctx.length) :
    rd ctx.buffer (cue_text_end ctx) = 13 ∨ rd ctx.buffer (cue_text_end ctx) = 10 := by
  unfold cue_text_end at h ⊢
  exact skip_line_loop_stop _ _ _ _ (Nat.le_refl _) h

theorem memread_length (buf : List Nat) (p n : Nat) : (memread buf p n).length = n := by
  simp [memread]

theorem memread_add (buf : List Nat) (p a b : Nat) :
    memread buf p (a + b) = memread buf p a ++ memread buf (p + a) b := by
  induction a generalizing p with
  | zero =>
    rw [Nat.zero_add]
    rfl
  | succ a ih =>
    rw [Nat.add_right_comm, memread_succ, memread_succ, ih (p + 1), List.cons_append]
    rw [Nat.add_assoc p 1 a, Nat.add_comm 1 a]

/-- What a successful `webvtt_parse_cue` returns. -/
theorem parse_cue_cue_inv (ctx ctx1 : webvtt_parser_t) (c : webvtt_cue)
    (hc : webvtt_parse_cue ctx = (CueResult.cue c, ctx1)) :
    ∃ t, sscanf_timing (ctx.buffer.drop (cue_scan_start ctx)) = some t
      ∧ c = ⟨to_millis t.smin t.ssec t.smsec, to_millis t.emin t.esec t.emsec,
          memread ctx.buffer (cue_text_start ctx) (cue_text_end ctx - cue_text_start ctx)⟩
      ∧ ctx1 = { ctx with offset := cue_text_end ctx } := by
  by_cases h : (ctx.length : Int) - (ctx.offset : Int) < 24
  · rw [parse_cue_no_more ctx h] at hc
    cases hc
  · cases hs : sscanf_timing (ctx.buffer.drop (cue_scan_start ctx)) with
    | none =>
      rw [parse_cue_bad_timestamps ctx h hs] at hc
      cases hc
    | some t =>
      rw [parse_cue_cue ctx t h hs] at hc
      simp only [Prod.mk.injEq, CueResult.cue.injEq] at hc
      exact ⟨t, rfl, hc.1.symm, hc.2.symm⟩

theorem parse_cue_offset_le (ctx : webvtt_parser_t) :
    ctx.offset ≤ (webvtt_parse_cue ctx).2.offset := by
  by_cases h : (ctx.length : Int) - (ctx.offset : Int) < 24
  · rw [parse_cue_no_more ctx h]
  · cases hs : sscanf_timing (ctx.buffer.drop (cue_scan_start ctx)) with
    | none => rw [parse_cue_bad_timestamps ctx h hs]
    | some t =>
      rw [parse_cue_cue ctx t h hs]
      exact Nat.le_of_lt (cue_text_end_gt ctx)

theorem successive_offset_le (ctx : webvtt_parser_t) (cs : List webvtt_cue)
    (ctx1 : webvtt_parser_t) (h : SuccessiveCues ctx cs ctx1) : ctx.offset ≤ ctx1.offset := by
  induction h with
  | stop_no_more ctx ctx1 hr =>
    have h1 := parse_cue_offset_le ctx
    rw [hr] at h1
    exact h1
  | stop_bad_timestamps ctx ctx1 hr =>
    have h1 := parse_cue_offset_le ctx
    rw [hr] at h1
    exact h1
  | next ctx ctx1 ctx2 c cs hr _ ih =>
    have h1 := parse_cue_offset_le ctx
    rw [hr] at h1
    exact Nat.le_trans h1 ih

theorem successive_count (ctx : webvtt_parser_t) (cs : List webvtt_cue)
    (ctx1 : webvtt_parser_t) (h : SuccessiveCues ctx cs ctx1) :
    cs.length ≤ ctx.length - ctx.offset := by
  induction h with
  | stop_no_more ctx ctx1 hr => exact Nat.zero_le _
  | stop_bad_timestamps ctx ctx1 hr => exact Nat.zero_le _
  | next ctx ctx1 ctx2 c cs hr _ ih =>
    have hadv := parse_cue_advance ctx ctx1 c hr
    have hb := parse_cue_buffer ctx
    rw [hr] at hb
    have hlen : ctx1.length = ctx.length := hb.2.1
    rw [List.length_cons]
    omega

/-- The three ways out of `webvtt_parse`. -/
theorem parse_cases (ctx : webvtt_parser_t) :
    webvtt_parse ctx = (ParseResult.too_short, ctx)
      ∨ webvtt_parse ctx = (ParseResult.bad_magic, ctx)
      ∨ webvtt_parse ctx
        = (ParseResult.cues (cue_chain { ctx with offset := signature_end ctx }).1,
            (cue_chain { ctx with offset := signature_end ctx }).2) := by
  by_cases h : ctx.length < 6 ∨ (has_bom ctx.buffer = true ∧ ctx.length < 9)
  · exact Or.inl (parse_too_short ctx h)
  · have h6 : 6 ≤ ctx.length := by omega
    have h9 : has_bom ctx.buffer = true → 9 ≤ ctx.length := by
      intro hb
      by_contra h9
      exact h (Or.inr ⟨hb, by omega⟩)
    cases hm : memeq ctx.buffer (if has_bom ctx.buffer then 3 else 0) (bytes "WEBVTT") with
    | false => exact Or.inr (Or.inl (parse_bad_magic ctx h6 h9 hm))
    | true => exact Or.inr (Or.inr (parse_accepted ctx h6 h9 hm))

theorem parse_buffer_staged (ctx : webvtt_parser_t) (chunk : List Nat) :
    webvtt_parse_buffer ctx chunk = webvtt_parse (staged ctx chunk) := rfl

theorem occurs_memeq (buf : List Nat) (p n : Nat) (pat text : List Nat)
    (ht : text = memread buf p n) (ho : occurs_in pat text) :
    ∃ j, p ≤ j ∧ j + pat.length ≤ p + n ∧ memeq buf j pat = true := by
  obtain ⟨pre, post, hpp⟩ := ho
  have hn : n = pre.length + (pat.length + post.length) := by
    have h1 := congrArg List.length ht
    rw [memread_length, hpp] at h1
    simp only [List.length_append] at h1
    omega
  rw [hpp, hn, memread_add, List.append_assoc] at ht
  have h2 := (List.append_inj ht (memread_length _ _ _).symm).2
  rw [memread_add] at h2
  have h3 := (List.append_inj h2 (memread_length _ _ _).symm).1
  exact ⟨p + pre.length, Nat.le_add_right _ _, by omega,
    (memeq_iff_memread _ _ _).mpr h3.symm⟩

theorem no_terminator_in_text (ctx : webvtt_parser_t) (j : Nat)
    (h1 : cue_text_start ctx ≤ j) (h2 : j < cue_text_end ctx) :
    memeq ctx.buffer j [10, 10] = false ∧ memeq ctx.buffer j [13, 10, 13, 10] = false
      ∧ memeq ctx.buffer j [13, 13] = false := by
  by_cases hj : j < find_blank ctx.buffer ctx.length (cue_text_start ctx)
  · exact (find_blank_loop_between _ _ _ _ _ h1 hj).2
  · have h3 := skip_line_loop_between ctx.buffer ctx.length
      (ctx.length - find_blank ctx.buffer ctx.length (cue_text_start ctx))
      (find_blank ctx.buffer ctx.length (cue_text_start ctx)) j (by omega) h2
    obtain ⟨_, h13, h10⟩ := h3
    simp [memeq, h13, h10]

/-! ## `sscanf` and the timing-line pattern -/

theorem scan_digits_snd (l : List Nat) (acc : Nat) :
    (scan_digits acc l).2 = l.dropWhile isdigit := by
  induction l generalizing acc with
  | nil => rfl
  | cons c cs ih =>
    simp only [scan_digits, List.dropWhile_cons]
    split
    · exact ih _
    · rfl

theorem isdigit_not_space (c : Nat) (h : isdigit c = true) :
    isspace c = false ∧ c ≠ 45 ∧ c ≠ 43 := by
  simp only [isdigit, Bool.and_eq_true, decide_eq_true_eq] at h
  simp only [isspace, Bool.or_eq_false_iff, beq_eq_false_iff_ne, ne_eq, Bool.and_eq_false_imp,
    decide_eq_true_eq, decide_eq_false_iff_not, not_le]
  omega

theorem scan_int_of_pattern (inp r : List Nat) (h : pattern_digits inp = some r) :
    ∃ v, scan_int inp = some (v, r) := by
  cases inp with
  | nil => cases h
  | cons c cs =>
    simp only [pattern_digits] at h
    split at h
    · rename_i hd
      obtain ⟨h1, h2, h3⟩ := isdigit_not_space c hd
      simp only [Option.some.injEq] at h
      refine ⟨wrap32 (clamp_long ((scan_digits 0 (c :: cs)).1 : Int)), ?_⟩
      have hsnd : (scan_digits 0 (c :: cs)).2 = r := by
        rw [scan_digits_snd, List.dropWhile_cons, if_pos hd, h]
      simp [scan_int, scan_space, h1, h2, h3, scan_number, hd, hsnd]
    · cases h

theorem scan_space_of_pattern (inp r : List Nat) (h : pattern_digits inp = some r) :
    scan_space inp = inp := by
  cases inp with
  | nil => rfl
  | cons c cs =>
    simp only [pattern_digits] at h
    split at h
    · rename_i hd
      simp [scan_space, (isdigit_not_space c hd).1]
    · cases h

theorem scan_lit_of_pattern (k : Nat) (inp r : List Nat) (h : pattern_lit [k] inp = some r) :
    scan_lit k inp = some r := by
  cases inp with
  | nil => cases h
  | cons d ds =>
    simp only [pattern_lit] at h
    split at h
    · rename_i hk
      simp only [pattern_lit, Option.some.injEq] at h
      simp [scan_lit, hk, h]
    · cases h

theorem pattern_lit_eq (lit inp r : List Nat) (h : pattern_lit lit inp = some r) :
    inp = lit ++ r := by
  induction lit generalizing inp with
  | nil =>
    simp only [pattern_lit, Option.some.injEq] at h
    rw [h]
    rfl
  | cons c cs ih =>
    cases inp with
    | nil => cases h
    | cons d ds =>
      simp only [pattern_lit] at h
      split at h
      · rename_i hk
        rw [hk, ih ds h]
        rfl
      · cases h

/-- Every input that starts with a line of the pattern is converted in full by `sscanf`. -/
theorem pattern_accepted (inp : List Nat) (h : spec_timing_pattern inp = true) :
    ∃ t, sscanf_timing inp = some t := by
  unfold spec_timing_pattern at h
  rw [Option.isSome_iff_exists] at h
  obtain ⟨r, h⟩ := h
  simp only [Option.bind_eq_bind, Option.bind_eq_some] at h
  obtain ⟨r1, h1, r2, h2, r3, h3, r4, h4, r5, h5, r6, h6, r7, h7, r8, h8, r9, h9, r10, h10, h11⟩ := h
  obtain ⟨v1, e1⟩ := scan_int_of_pattern _ _ h1
  obtain ⟨v2, e2⟩ := scan_int_of_pattern _ _ h3
  obtain ⟨v3, e3⟩ := scan_int_of_pattern _ _ h5
  obtain ⟨v4, e4⟩ := scan_int_of_pattern _ _ h7
  obtain ⟨v5, e5⟩ := scan_int_of_pattern _ _ h9
  obtain ⟨v6, e6⟩ := scan_int_of_pattern _ _ h11
  have l2 := scan_lit_of_pattern _ _ _ h2
  have l4 := scan_lit_of_pattern _ _ _ h4
  have l8 := scan_lit_of_pattern _ _ _ h8
  have l10 := scan_lit_of_pattern _ _ _ h10
  have harrow : r5 = 32 :: 45 :: 45 :: 62 :: 32 :: r6 := by
    have := pattern_lit_eq _ _ _ h6
    rw [this]
    rfl
  have hsp := scan_space_of_pattern _ _ h7
  have ha1 : scan_space r5 = 45 :: 45 :: 62 :: 32 :: r6 := by
    rw [harrow]
    simp [scan_space, isspace]
  have ha2 : scan_lit 45 (45 :: 45 :: 62 :: 32 :: r6) = some (45 :: 62 :: 32 :: r6) := rfl
  have ha3 : scan_lit 45 (45 :: 62 :: 32 :: r6) = some (62 :: 32 :: r6) := rfl
  have ha4 : scan_lit 62 (62 :: 32 :: r6) = some (32 :: r6) := rfl
  have ha5 : scan_space (32 :: r6) = r6 :=
    (rfl : scan_space (32 :: r6) = scan_space r6).trans hsp
  refine ⟨⟨v1, v2, v3, v4, v5, v6⟩, ?_⟩
  unfold sscanf_timing
  simp only [Option.bind_eq_bind, Option.some_bind, Option.pure_def, e1, l2, e2, l4, e3, ha1,
    ha2, ha3, ha4, ha5, e4, l8, e5, l10, e6]

/-! ## The claims, continued -/

/-- Claim C11 (code defect): for the two-cue document whose first timing line
is `00:01.001 --> 00:02.500`, `webvtt_parse` returns two cues in document
order with the texts `Hello` and `World`, and the cursor after the second
extraction (68) is beyond the cursor after the first (37); but the first cue
starts at 1000, not at the 1001 milliseconds of its timing line, whose fields
are read as 0, 1 and 1. -/
theorem C11_two_cues_first_start_short :
    (webvtt_parse_buffer (webvtt_parse_new []) doc_two_cues).1
        = ParseResult.cues [⟨1000, 2500, bytes "Hello"⟩, ⟨3000, 4000, bytes "World"⟩]
      ∧ sscanf_timing (doc_two_cues.drop 8) = some ⟨0, 1, 1, 0, 2, 500⟩
      ∧ (webvtt_parse_cue ⟨0, doc_two_cues, 8, 70⟩).2.offset = 37
      ∧ (webvtt_parse_cue (webvtt_parse_cue ⟨0, doc_two_cues, 8, 70⟩).2).2.offset = 68 := by
  refine ⟨by decide, by decide, by decide, by decide⟩

/-- Claim C12: when fewer than 24 bytes remain between the cursor and `length`,
`webvtt_parse_cue` returns `NULL` through the return statement that writes no
diagnostic ("no more cues"), produces no cue and leaves the session as it was. -/
theorem C12_no_more_cues (ctx : webvtt_parser_t)
    (h : (ctx.length : Int) - (ctx.offset : Int) < 24) :
    webvtt_parse_cue ctx = (CueResult.no_more, ctx) :=
  parse_cue_no_more ctx h

/-- Witness of claim C12: the scenario document with the cursor at 37, two bytes before the end. -/
theorem C12_no_more_cues_witness :
    (((39 : Nat) : Int) - ((37 : Nat) : Int) < 24)
      ∧ webvtt_parse_cue ⟨0, doc_hello, 37, 39⟩ = (CueResult.no_more, ⟨0, doc_hello, 37, 39⟩) :=
  ⟨by decide, C12_no_more_cues ⟨0, doc_hello, 37, 39⟩ (by decide)⟩

/-- Counterexample to claim C13: 31 bytes remain after the cursor and the
bytes there, `00:01.000`, `-->` and `00:02.500` on three lines, do not match the
timing-line pattern; yet `webvtt_parse_cue` returns a cue, whose text starts
with the arrow, and moves the cursor.  (The timing line of the scenario
document does match the pattern.) -/
theorem C13_split_timing_accepted :
    ¬ (((39 : Nat) : Int) - ((8 : Nat) : Int) < 24)
      ∧ spec_timing_pattern (doc_split_timing.drop (cue_scan_start ⟨0, doc_split_timing, 8, 39⟩))
        = false
      ∧ webvtt_parse_cue ⟨0, doc_split_timing, 8, 39⟩
        = (CueResult.cue ⟨1000, 2500, bytes "-->\n00:02.500\nHello"⟩,
            ⟨0, doc_split_timing, 37, 39⟩)
      ∧ spec_timing_pattern (doc_hello.drop 8) = true := by
  refine ⟨by decide, by decide, by decide, by decide⟩

/-- Claim C13, amended: when at least 24 bytes remain and `sscanf` converts
fewer than six items from the bytes after the leading white space,
`webvtt_parse_cue` returns `NULL` through the "Couldn't parse cue timestamps"
diagnostic, produces no cue and leaves the session as it was; bytes that
`sscanf` rejects never match the timing-line pattern. -/
theorem C13_malformed_timing_line (ctx : webvtt_parser_t)
    (h24 : ¬ ((ctx.length : Int) - (ctx.offset : Int) < 24))
    (hs : sscanf_timing (ctx.buffer.drop (cue_scan_start ctx)) = none) :
    webvtt_parse_cue ctx = (CueResult.bad_timestamps, ctx)
      ∧ spec_timing_pattern (ctx.buffer.drop (cue_scan_start ctx)) = false := by
  refine ⟨parse_cue_bad_timestamps ctx h24 hs, ?_⟩
  cases hp : spec_timing_pattern (ctx.buffer.drop (cue_scan_start ctx)) with
  | false => rfl
  | true =>
    obtain ⟨t, ht⟩ := pattern_accepted _ hp
    rw [hs] at ht
    cases ht

/-- Witness of claim C13, amended: the document whose second timing line starts with `xx`. -/
theorem C13_malformed_timing_line_witness :
    (¬ (((70 : Nat) : Int) - ((37 : Nat) : Int) < 24)
        ∧ sscanf_timing (doc_bad_second.drop (cue_scan_start ⟨0, doc_bad_second, 37, 70⟩)) = none)
      ∧ webvtt_parse_cue ⟨0, doc_bad_second, 37, 70⟩
        = (CueResult.bad_timestamps, ⟨0, doc_bad_second, 37, 70⟩) :=
  ⟨⟨by decide, by decide⟩,
    (C13_malformed_timing_line ⟨0, doc_bad_second, 37, 70⟩ (by decide) (by decide)).1⟩

/-- Claim C14 (code defect): a fresh session is fed the scenario document,
which leaves the cursor at 37, and then the nine bytes `WEBVTT\n\nx`; the
second call leaves the cursor at 8.  The chunk was copied to the start of the
buffer, where its `x` replaced the first digit of the timing line, and
`webvtt_parse` restarted at the signature and stopped at that line. -/
theorem C14_cursor_rewound :
    (webvtt_parse_buffer (webvtt_parse_new []) doc_hello).2.offset = 37
      ∧ (webvtt_parse_buffer (webvtt_parse_buffer (webvtt_parse_new []) doc_hello).2
          (bytes "WEBVTT\n\nx")).2.buffer
        = bytes "WEBVTT\n\nx0:01.000 --> 00:02.500\nHello\n\n"
      ∧ (webvtt_parse_buffer (webvtt_parse_buffer (webvtt_parse_new []) doc_hello).2
          (bytes "WEBVTT\n\nx")).2.length = 48
      ∧ (webvtt_parse_buffer (webvtt_parse_buffer (webvtt_parse_new []) doc_hello).2
          (bytes "WEBVTT\n\nx")).2.offset = 8
      ∧ ¬ ((webvtt_parse_buffer (webvtt_parse_new []) doc_hello).2.offset
          ≤ (webvtt_parse_buffer (webvtt_parse_buffer (webvtt_parse_new []) doc_hello).2
              (bytes "WEBVTT\n\nx")).2.offset) := by
  refine ⟨by decide, by decide, by decide, by decide, by decide⟩

/-- Where the cursor is after a call: `webvtt_parse_cue` never decreases it.
`webvtt_parse` leaves the session as it was when it rejects the signature, and
otherwise sets the cursor to the end of the signature and of the white space
after it and then only moves it forward, so that the cursor after the call is
at least that position, whatever it was before the call.  The same holds for
`webvtt_parse_buffer`, which ends with a call of `webvtt_parse` on the staged
session. -/
theorem cursor_after_parse :
    (∀ ctx : webvtt_parser_t, ctx.offset ≤ (webvtt_parse_cue ctx).2.offset)
      ∧ (∀ ctx : webvtt_parser_t,
          (((webvtt_parse ctx).1 = ParseResult.too_short
              ∨ (webvtt_parse ctx).1 = ParseResult.bad_magic) ∧ (webvtt_parse ctx).2 = ctx)
            ∨ ((∃ cs, (webvtt_parse ctx).1 = ParseResult.cues cs)
              ∧ signature_end ctx ≤ (webvtt_parse ctx).2.offset))
      ∧ (∀ (ctx : webvtt_parser_t) (chunk : List Nat),
          (((webvtt_parse_buffer ctx chunk).1 = ParseResult.too_short
              ∨ (webvtt_parse_buffer ctx chunk).1 = ParseResult.bad_magic)
              ∧ (webvtt_parse_buffer ctx chunk).2.offset = ctx.offset)
            ∨ ((∃ cs, (webvtt_parse_buffer ctx chunk).1 = ParseResult.cues cs)
              ∧ signature_end (staged ctx chunk) ≤ (webvtt_parse_buffer ctx chunk).2.offset)) := by
  have hparse : ∀ ctx : webvtt_parser_t,
      (((webvtt_parse ctx).1 = ParseResult.too_short
          ∨ (webvtt_parse ctx).1 = ParseResult.bad_magic) ∧ (webvtt_parse ctx).2 = ctx)
        ∨ ((∃ cs, (webvtt_parse ctx).1 = ParseResult.cues cs)
          ∧ signature_end ctx ≤ (webvtt_parse ctx).2.offset) := by
    intro ctx
    rcases parse_cases ctx with h | h | h
    · rw [h]
      exact Or.inl ⟨Or.inl rfl, rfl⟩
    · rw [h]
      exact Or.inl ⟨Or.inr rfl, rfl⟩
    · rw [h]
      refine Or.inr ⟨⟨_, rfl⟩, ?_⟩
      exact successive_offset_le _ _ _
        (cue_chain_successive { ctx with offset := signature_end ctx })
  refine ⟨parse_cue_offset_le, hparse, ?_⟩
  intro ctx chunk
  rw [parse_buffer_staged]
  rcases hparse (staged ctx chunk) with ⟨h1, h2⟩ | h
  · refine Or.inl ⟨h1, ?_⟩
    rw [h2]
    rfl
  · exact Or.inr h

/-- Claim C15 (code defect): a fresh session is fed a document that ends with
its timing line, without a line terminator; one cue is returned and the cursor
is left at 33, beyond `length`, which is 32. -/
theorem C15_cursor_beyond_length :
    (webvtt_parse_buffer (webvtt_parse_new []) doc_unterminated).1
        = ParseResult.cues [⟨1000, 7000, []⟩]
      ∧ (webvtt_parse_buffer (webvtt_parse_new []) doc_unterminated).2.offset = 33
      ∧ (webvtt_parse_buffer (webvtt_parse_new []) doc_unterminated).2.length = 32
      ∧ ¬ ((webvtt_parse_buffer (webvtt_parse_new []) doc_unterminated).2.offset
          ≤ (webvtt_parse_buffer (webvtt_parse_new []) doc_unterminated).2.length) := by
  refine ⟨by decide, by decide, by decide, by decide⟩

/-- Counterexample to claim C16: for the scenario document the cue text ends
at index 37, where the terminator `\n\n` starts, and `webvtt_parse_cue` leaves
the cursor at 37, not past that terminator. -/
theorem C16_cursor_on_terminator :
    webvtt_parse_cue ⟨0, doc_hello, 8, 39⟩
        = (CueResult.cue ⟨1000, 2500, bytes "Hello"⟩, ⟨0, doc_hello, 37, 39⟩)
      ∧ memread doc_hello 32 5 = bytes "Hello"
      ∧ memread doc_hello 37 2 = [10, 10]
      ∧ ¬ cursor_past_terminator doc_hello 37 37 := by
  refine ⟨by decide, by decide, by decide, ?_⟩
  rintro ⟨term, hmem, _, hc⟩
  simp only [List.mem_cons, List.mem_singleton, List.not_mem_nil, or_false] at hmem
  rcases hmem with h | h | h | h | h <;> subst h <;> simp at hc

/-- Claim C16, amended: after every successful `webvtt_parse_cue` the cursor is
at the position where the cue text ends, the text being the bytes of the
buffer from the text start on; when that position is below `length`, the byte
there is CR or LF, the first byte of the terminator that ended the text block,
so that the terminator is not consumed; buffer and `length` are unchanged. -/
theorem C16_cursor_at_text_end (ctx ctx1 : webvtt_parser_t) (c : webvtt_cue)
    (h : webvtt_parse_cue ctx = (CueResult.cue c, ctx1)) :
    ctx1.offset = cue_text_start ctx + c.text.length
      ∧ c.text = memread ctx.buffer (cue_text_start ctx) c.text.length
      ∧ (ctx1.offset < ctx.length →
          rd ctx.buffer ctx1.offset = 13 ∨ rd ctx.buffer ctx1.offset = 10)
      ∧ ¬ cursor_past_terminator ctx.buffer (cue_text_start ctx + c.text.length) ctx1.offset
      ∧ ctx1.buffer = ctx.buffer ∧ ctx1.length = ctx.length := by
  obtain ⟨t, _, hc, h1⟩ := parse_cue_cue_inv ctx ctx1 c h
  have hle := cue_text_start_le_end ctx
  have hlen : c.text.length = cue_text_end ctx - cue_text_start ctx := by
    rw [hc]
    exact memread_length _ _ _
  have hoff : ctx1.offset = cue_text_start ctx + c.text.length := by
    rw [hlen, h1]
    show cue_text_end ctx = _
    omega
  refine ⟨hoff, ?_, ?_, ?_, ?_, ?_⟩
  · rw [hlen, hc]
  · intro hlt
    rw [h1] at hlt ⊢
    exact cue_text_end_stop ctx hlt
  · rw [← hoff]
    rintro ⟨term, hmem, _, hcur⟩
    simp only [List.mem_cons, List.mem_singleton, List.not_mem_nil, or_false] at hmem
    rcases hmem with h | h | h | h | h <;> subst h <;> simp at hcur
  · rw [h1]
  · rw [h1]

/-- Witness of claim C16, amended: the scenario document, cursor at 8. -/
theorem C16_cursor_at_text_end_witness :
    webvtt_parse_cue ⟨0, doc_hello, 8, 39⟩
        = (CueResult.cue ⟨1000, 2500, bytes "Hello"⟩, ⟨0, doc_hello, 37, 39⟩)
      ∧ (37 : Nat) = cue_text_start ⟨0, doc_hello, 8, 39⟩ + (bytes "Hello").length :=
  ⟨by decide,
    (C16_cursor_at_text_end ⟨0, doc_hello, 8, 39⟩ ⟨0, doc_hello, 37, 39⟩
      ⟨1000, 2500, bytes "Hello"⟩ (by decide)).1⟩

/-- Claim C17 (code defect): for the scenario document written with CR LF line
endings, the cue text is `\nHello`: it begins with the LF of the CR LF that
ends the timing line, because one byte only is skipped after the timing line. -/
theorem C17_text_starts_with_line_feed :
    (webvtt_parse_buffer (webvtt_parse_new []) doc_crlf).1
        = ParseResult.cues [⟨1000, 2500, bytes "\nHello"⟩]
      ∧ memread doc_crlf 33 2 = [13, 10]
      ∧ cue_text_start ⟨0, doc_crlf, 10, 44⟩ = 34 := by
  refine ⟨by decide, by decide, by decide⟩

/-- Claim C18 (code defect): two fresh sessions are fed the same 32 bytes, a
document that ends with the timing line `00:01.000 --> 00:02.5000`; the byte at
index 32, which was never staged, is the digit `7` in one buffer and a line
feed in the other.  Both hold the same `length` and the same bytes below it,
and `webvtt_parse` returns a cue that ends at 52007 for the one and at 7000
for the other: `sscanf` reads on past `length`. -/
theorem C18_result_depends_on_unstaged_byte :
    (webvtt_parse_buffer (webvtt_parse_new (List.replicate 32 0 ++ [55])) doc_unterminated).2.length
        = 32
      ∧ (webvtt_parse_buffer (webvtt_parse_new (List.replicate 32 0 ++ [10])) doc_unterminated).2.length
        = 32
      ∧ memread (webvtt_parse_buffer (webvtt_parse_new (List.replicate 32 0 ++ [55]))
            doc_unterminated).2.buffer 0 32
        = memread (webvtt_parse_buffer (webvtt_parse_new (List.replicate 32 0 ++ [10]))
            doc_unterminated).2.buffer 0 32
      ∧ (webvtt_parse_buffer (webvtt_parse_new (List.replicate 32 0 ++ [55])) doc_unterminated).1
        = ParseResult.cues [⟨1000, 52007, []⟩]
      ∧ (webvtt_parse_buffer (webvtt_parse_new (List.replicate 32 0 ++ [10])) doc_unterminated).1
        = ParseResult.cues [⟨1000, 7000, []⟩] := by
  refine ⟨by decide, by decide, by decide, by decide, by decide⟩

/-- Claim C19: every successful `webvtt_parse_cue` strictly increases the
cursor; from every session state the successive calls reach, after finitely
many cues, a call that yields none, and the loop of `webvtt_parse` returns
exactly those cues, at most `length - offset` of them; so `webvtt_parse`
returns on every session, through a signature diagnostic or with a chain of at
most `length` cues. -/
theorem C19_parse_terminates :
    (∀ (ctx ctx1 : webvtt_parser_t) (c : webvtt_cue),
        webvtt_parse_cue ctx = (CueResult.cue c, ctx1) → ctx.offset < ctx1.offset)
      ∧ (∀ ctx : webvtt_parser_t, ∃ cs ctx1,
          SuccessiveCues ctx cs ctx1 ∧ cue_chain ctx = (cs, ctx1)
            ∧ cs.length ≤ ctx.length - ctx.offset)
      ∧ (∀ ctx : webvtt_parser_t,
          webvtt_parse ctx = (ParseResult.too_short, ctx)
            ∨ webvtt_parse ctx = (ParseResult.bad_magic, ctx)
            ∨ ∃ cs ctx1, webvtt_parse ctx = (ParseResult.cues cs, ctx1)
                ∧ SuccessiveCues { ctx with offset := signature_end ctx } cs ctx1
                ∧ cs.length ≤ ctx.length) := by
  refine ⟨fun ctx ctx1 c h => (parse_cue_advance ctx ctx1 c h).2, ?_, ?_⟩
  · intro ctx
    have hs := cue_chain_successive ctx
    exact ⟨_, _, hs, rfl, successive_count _ _ _ hs⟩
  · intro ctx
    rcases parse_cases ctx with h | h | h
    · exact Or.inl h
    · exact Or.inr (Or.inl h)
    · have hs := cue_chain_successive { ctx with offset := signature_end ctx }
      have hn := successive_count _ _ _ hs
      exact Or.inr (Or.inr ⟨_, _, h, hs, Nat.le_trans hn (Nat.sub_le _ _)⟩)

/-- Claim C20: the text of every cue that `webvtt_parse_cue` returns is a
contiguous run of bytes of the buffer, from the text start on, that lies
within the staged bytes (or is empty), and none of `\n\n`, `\r\r` and
`\r\n\r\n` occurs inside it, whichever of the two loops found its end. -/
theorem C20_text_without_blank_line (ctx ctx1 : webvtt_parser_t) (c : webvtt_cue)
    (h : webvtt_parse_cue ctx = (CueResult.cue c, ctx1)) :
    c.text = memread ctx.buffer (cue_text_start ctx) c.text.length
      ∧ (c.text = [] ∨ cue_text_start ctx + c.text.length ≤ ctx.length)
      ∧ ¬ occurs_in [10, 10] c.text
      ∧ ¬ occurs_in [13, 13] c.text
      ∧ ¬ occurs_in [13, 10, 13, 10] c.text := by
  obtain ⟨t, _, hc, _⟩ := parse_cue_cue_inv ctx ctx1 c h
  have hle := cue_text_start_le_end ctx
  have htext : c.text
      = memread ctx.buffer (cue_text_start ctx) (cue_text_end ctx - cue_text_start ctx) := by
    rw [hc]
  have hlen : c.text.length = cue_text_end ctx - cue_text_start ctx := by
    rw [htext]
    exact memread_length _ _ _
  have hno : ∀ pat : List Nat, 2 ≤ pat.length → occurs_in pat c.text →
      ∃ j, cue_text_start ctx ≤ j ∧ j < cue_text_end ctx ∧ memeq ctx.buffer j pat = true := by
    intro pat hp ho
    obtain ⟨j, hj1, hj2, hj3⟩ := occurs_memeq _ _ _ pat c.text htext ho
    exact ⟨j, hj1, by omega, hj3⟩
  refine ⟨by rw [hlen, ← htext], ?_, ?_, ?_, ?_⟩
  · by_cases hs : cue_text_start ctx ≤ ctx.length
    · have he := cue_text_end_le ctx hs
      exact Or.inr (by omega)
    · have he := cue_text_end_of_gt ctx (by omega)
      refine Or.inl (List.eq_nil_of_length_eq_zero ?_)
      omega
  · intro ho
    obtain ⟨j, hj1, hj2, hj3⟩ := hno _ (by decide) ho
    rw [(no_terminator_in_text ctx j hj1 hj2).1] at hj3
    cases hj3
  · intro ho
    obtain ⟨j, hj1, hj2, hj3⟩ := hno _ (by decide) ho
    rw [(no_terminator_in_text ctx j hj1 hj2).2.2] at hj3
    cases hj3
  · intro ho
    obtain ⟨j, hj1, hj2, hj3⟩ := hno _ (by decide) ho
    rw [(no_terminator_in_text ctx j hj1 hj2).2.1] at hj3
    cases hj3

/-- Witness of claim C20: the three-line document, whose cue text `Hello\nabc`
was ended by the second loop. -/
theorem C20_text_without_blank_line_witness :
    webvtt_parse_cue ⟨0, doc_three_lines, 8, 45⟩
        = (CueResult.cue ⟨1000, 2500, bytes "Hello\nabc"⟩, ⟨0, doc_three_lines, 41, 45⟩)
      ∧ ¬ occurs_in [10, 10] (bytes "Hello\nabc") :=
  ⟨by decide,
    (C20_text_without_blank_line ⟨0, doc_three_lines, 8, 45⟩ ⟨0, doc_three_lines, 41, 45⟩
      ⟨1000, 2500, bytes "Hello\nabc"⟩ (by decide)).2.2.1⟩

end WebVTT
